import Mathlib

/-!
# Verification of the smart-crawler single-page analysis engine

A shallow embedding of the core algorithms of `crawler/crawler_engine.py`
(the `SmartCrawler` class) and of the graph-layout builder
`crawler/views.py::api_graph_data`, together with theorems settling the
frozen specification claims.

Conventions of the embedding:
* Python floats appearing in the scoring code are modelled by `ℚ`;
  Python `round` (round-half-to-even on the value being rounded) is
  modelled by `pyRound`.
* Python `int` is modelled by `ℤ` (scores) or `ℕ` (sizes, counters).
* HTML documents parsed by BeautifulSoup are modelled by the `Elem` tree.
* Library calls with no algorithmic content in this repository
  (`urljoin`/`urlparse`, JSON parsing, the network) are modelled as
  oracle parameters of the functions that invoke them.
-/

namespace SmartCrawler

/-! ## Python `round` (banker's rounding) over `ℚ` -/

/-- Python's `round` applied to a numeric value `q`: round to the nearest
integer, ties going to the even integer. -/
def pyRound (q : ℚ) : ℤ :=
  let f : ℤ := ⌊q⌋
  let r : ℚ := q - (f : ℚ)
  if r < 1/2 then f
  else if (1:ℚ)/2 < r then f + 1
  else if f % 2 = 0 then f else f + 1

/-! ## `_calculate_performance_score` (crawler_engine.py lines 273-296)

`response_time` (a float, seconds) is modelled by `ℚ`; `page_size`
(`len(response.content)`, bytes) by `ℕ`. -/

/-- `_calculate_performance_score`: start at 100, subtract the single
highest matching response-time band, then the single highest matching
page-size band, and clamp below at 0. -/
def calculatePerformanceScore (responseTime : ℚ) (pageSize : ℕ) : ℤ :=
  let score : ℤ := 100
  let score : ℤ :=
    if responseTime > 3 then score - 40
    else if responseTime > 2 then score - 30
    else if responseTime > 1 then score - 20
    else if responseTime > 1/2 then score - 10
    else score
  let sizeMb : ℚ := (pageSize : ℚ) / (1024 * 1024)
  let score : ℤ :=
    if sizeMb > 5 then score - 30
    else if sizeMb > 3 then score - 20
    else if sizeMb > 1 then score - 10
    else score
  max 0 score

/-- Formalisation of the spec's response-time penalty bands:
`(0,0.5]→0`, `(0.5,1]→−10`, `(1,2]→−20`, `(2,3]→−30`, `(3,∞)→−40`,
exclusive highest match only. -/
def specResponseTimePenalty (t : ℚ) : ℤ :=
  if 3 < t then -40
  else if 2 < t then -30
  else if 1 < t then -20
  else if 1/2 < t then -10
  else 0

/-- Formalisation of the spec's page-size penalty bands:
`−10` at more than 1 MB, `−20` at more than 3 MB, `−30` at more than
5 MB, exclusive highest match only (1 MB = 1024·1024 bytes). -/
def specPageSizePenalty (size : ℕ) : ℤ :=
  if 5 * (1024 * 1024) < size then -30
  else if 3 * (1024 * 1024) < size then -20
  else if 1024 * 1024 < size then -10
  else 0

/-! ## The overall audit score (crawler_engine.py lines 242-247)

`overall_score = round(p*0.3 + a*0.25 + b*0.25 + s*0.2)`, computed with
IEEE double arithmetic.  The exact weighted sum is `auditWeightedSum`;
the float value actually rounded differs from it by strictly less than
`floatSlack` (a very generous bound: the true error of seven double
operations on values of magnitude at most a few hundred is below
`2^-40`). -/

/-- The exact weighted combination `0.30·p + 0.25·a + 0.25·b + 0.20·s`
of the four sub-scores. -/
def auditWeightedSum (p a b s : ℤ) : ℚ :=
  (p : ℚ) * (3/10) + (a : ℚ) * (1/4) + (b : ℚ) * (1/4) + (s : ℚ) * (1/5)

/-- Sound bound on the rounding error of the float evaluation of the
weighted sum for sub-scores in `[0,100]`. -/
def floatSlack : ℚ := 1 / 2 ^ 40

/-- The overall score as computed by `_run_lighthouse_audit`, as a
function of the (float) value `fl` to which the weighted sum was
evaluated. -/
def overallScoreOf (fl : ℚ) : ℤ := pyRound fl

/-! ## The parsed HTML document

BeautifulSoup's parse tree is modelled by `Elem`: an element carries its
tag name, its attribute list (`id`, `href`, `type`, ... as parsed), its
`class` token list (BeautifulSoup exposes `class` as a list, separately
from plain string attributes), and its children; a bare string in the
document is a `text` node (it has no `name` in BeautifulSoup, so every
`hasattr(child, 'name')` / `child.name` guard in the source filters it
out). -/

inductive Elem where
  | tag (name : String) (attrs : List (String × String))
        (classes : List String) (children : List Elem)
  | text (s : String)

/-- `element.get(key)` for a plain (non-`class`) attribute. -/
def Elem.attr : Elem → String → Option String
  | .text _, _ => none
  | .tag _ attrs _ _, k => attrs.lookup k

/-- `element.get('id', '')`. -/
def Elem.idAttr (e : Elem) : String := (e.attr "id").getD ""

/-- `element.get('class', [])`. -/
def Elem.classList : Elem → List String
  | .text _ => []
  | .tag _ _ cs _ => cs

/-- The element's tag name (`element.name`); `""` for a text node,
which never matches any tag the source compares against. -/
def Elem.tagName : Elem → String
  | .text _ => ""
  | .tag n _ _ _ => n

/-- The element's children (empty for text nodes). -/
def Elem.childList : Elem → List Elem
  | .text _ => []
  | .tag _ _ _ ch => ch

/-- Truthiness of `element.get(key)`: the attribute is present and
non-empty (Python's `if element.get(k):`). -/
def Elem.truthyAttr (e : Elem) (k : String) : Bool :=
  match e.attr k with
  | some v => v ≠ ""
  | none => false

mutual
/-- The element itself followed by all its element descendants in
document (pre-)order; a text node contributes nothing. -/
def Elem.selfAndDescendants : Elem → List Elem
  | .text _ => []
  | .tag n a c ch => .tag n a c ch :: elemListDescendants ch
/-- All element descendants of a list of siblings, in document order. -/
def elemListDescendants : List Elem → List Elem
  | [] => []
  | e :: rest => e.selfAndDescendants ++ elemListDescendants rest
end

/-- `soup.find_all(...)` with an arbitrary element predicate: all
elements of the document (the children of the `soup` object and their
descendants) in document order that satisfy the predicate. -/
def findAll (soup : Elem) (p : Elem → Bool) : List Elem :=
  (elemListDescendants soup.childList).filter p

/-- `soup.find(...)`: the first match of `find_all` in document order. -/
def findFirst (soup : Elem) (p : Elem → Bool) : Option Elem :=
  (findAll soup p).head?

/-- `element.get_text(strip=True)`: every descendant string, stripped of
surrounding whitespace, empty strings dropped, concatenated. -/
def Elem.getTextStrip (e : Elem) : String :=
  String.join (((collectStrings e).map String.trim).filter (fun s => s ≠ ""))
where
  /-- All descendant strings of an element in document order. -/
  collectStrings : Elem → List String
    | .text s => [s]
    | .tag _ _ _ ch => collectStringsList ch
  collectStringsList : List Elem → List String
    | [] => []
    | e :: rest => collectStrings e ++ collectStringsList rest

/-- Python's `needle in haystack` substring test, via `splitOn`:
the needle occurs iff splitting on it produces more than one piece. -/
def strContains (haystack needle : String) : Bool :=
  (haystack.splitOn needle).length > 1

/-! ## `_extract_title`, `_extract_meta_description` -/

/-- `_extract_title`: text of the first `title` element, stripped;
`''` if absent. -/
def extractTitle (soup : Elem) : String :=
  match findFirst soup (fun e => e.tagName = "title") with
  | some t => t.getTextStrip
  | none => ""

/-- Matches `soup.find('meta', attrs={'name': v})`. -/
def isMetaNamed (v : String) (e : Elem) : Bool :=
  e.tagName = "meta" && e.attr "name" = some v

/-- `_extract_meta_description`: `content` attribute of the
`meta[name=description]` tag when present and truthy, else `''`. -/
def extractMetaDescription (soup : Elem) : String :=
  match findFirst soup (isMetaNamed "description") with
  | some m => if m.truthyAttr "content" then (m.attr "content").getD "" else ""
  | none => ""

/-! ## `_extract_html_structure` (crawler_engine.py lines 83-126) -/

/-- The semantic tag set of the structure-tree builder. -/
def semanticTags : List String :=
  ["html", "head", "body", "header", "footer", "nav", "main",
   "section", "article", "aside", "div"]

/-- A node of the extracted structure tree: tag, id, classes, a count of
all direct element children by tag, and the retained semantic children. -/
inductive SNode where
  | mk (tag : String) (id : String) (classes : List String)
       (childCounts : List (String × Nat)) (children : List SNode)

def SNode.tag : SNode → String | .mk t _ _ _ _ => t
def SNode.idAttr : SNode → String | .mk _ i _ _ _ => i
def SNode.childCounts : SNode → List (String × Nat) | .mk _ _ _ cc _ => cc
def SNode.children : SNode → List SNode | .mk _ _ _ _ ch => ch

/-- The per-direct-child tag-count map (`child_counts` in the source):
insertion-ordered association list over all direct element children. -/
def countChildTags (children : List Elem) : List (String × Nat) :=
  children.foldl
    (fun acc c =>
      match c with
      | .text _ => acc
      | .tag n _ _ _ => bumpCount acc n)
    []
where
  /-- `counts[name] = counts.get(name, 0) + 1` on an insertion-ordered
  association list. -/
  bumpCount : List (String × Nat) → String → List (String × Nat)
    | [], n => [(n, 1)]
    | (k, v) :: rest, n =>
      if k = n then (k, v + 1) :: rest else (k, v) :: bumpCount rest n

mutual
/-- `build_tree(element, depth, max_depth)`: `None` past the depth cap,
for text nodes, and for any element whose tag is not semantic (with no
descent into its children); otherwise a retained node whose children are
the recursively retained direct children. -/
def buildTree (depth maxDepth : Nat) : Elem → Option SNode
  | .text _ => none
  | .tag n attrs classes children =>
    if depth > maxDepth then none
    else if n ∉ semanticTags then none
    else some (.mk n ((attrs.lookup "id").getD "") classes
        (countChildTags children)
        (buildTreeList (depth + 1) maxDepth children))
/-- The retained semantic children of a child list (the source's
`for child in element.children: ... if child_node: append`). -/
def buildTreeList (depth maxDepth : Nat) : List Elem → List SNode
  | [] => []
  | c :: rest =>
    match buildTree depth maxDepth c with
    | some node => node :: buildTreeList depth maxDepth rest
    | none => buildTreeList depth maxDepth rest
end

/-- `_extract_html_structure`: build the tree from the first `body`
element with depth cap 4; `{}` (here `none`) when there is no body. -/
def extractHtmlStructure (soup : Elem) : Option SNode :=
  match findFirst soup (fun e => e.tagName = "body") with
  | some body => buildTree 0 4 body
  | none => none

mutual
/-- Whether a tag name occurs anywhere in a built structure tree. -/
def SNode.containsTag (t : String) : SNode → Bool
  | .mk tag _ _ _ children => tag = t || containsTagList t children

/-- List version of `SNode.containsTag`. -/
def containsTagList (t : String) : List SNode → Bool
  | [] => false
  | n :: rest => n.containsTag t || containsTagList t rest
end

/-! ## `_extract_schema_markup` (lines 128-142)

JSON parsing is an external library call; it is modelled by the oracle
`parseOk : String → Bool` telling which script bodies parse as JSON, and
the extracted blocks are represented by the raw script strings that
parsed.  `script.string` is the tag's single string child, when the tag
has exactly one child and it is a string. -/

/-- `script.string`: the single string child, if any. -/
def Elem.scriptString : Elem → Option String
  | .tag _ _ _ [.text s] => some s
  | _ => none

/-- `_extract_schema_markup`: every `script[type=application/ld+json]`
whose string content parses as JSON; malformed blocks are skipped. -/
def extractSchemaMarkup (parseOk : String → Bool) (soup : Elem) : List String :=
  (findAll soup
      (fun e => e.tagName = "script" && e.attr "type" = some "application/ld+json")).filterMap
    (fun scr =>
      match scr.scriptString with
      | some s => if parseOk s then some s else none
      | none => none)

/-! ## `_find_parent_element` (lines 172-199)

The walk climbs `element.parent` pointers; the embedding passes the
ancestor chain of the link explicitly as a list, innermost ancestor
first (ending at the document top; BeautifulSoup's `[document]` object
is simply never a semantic tag and contributes nothing). -/

/-- One ancestor of a hyperlink element: tag name, `get('id','')` and
`get('class',[])`. -/
structure Anc where
  tag : String
  id : String
  classes : List String
deriving Repr, DecidableEq

/-- The tag set `_find_parent_element` collects. -/
def semanticElements : List String :=
  ["header", "footer", "nav", "main", "section", "article", "aside"]

/-- The descriptor appended for one collected ancestor: `tag#id` when
the id is truthy, else `tag.firstClass` when the class list is
non-empty, else the bare tag. -/
def ancestorDescriptor (a : Anc) : String :=
  if a.id ≠ "" then a.tag ++ "#" ++ a.id
  else
    match a.classes with
    | c :: _ => a.tag ++ "." ++ c
    | [] => a.tag

/-- The source's `while current and current.name != 'body'` loop:
descriptors of semantic ancestors, innermost first, stopping at the
first `body`. -/
def collectParents : List Anc → List String
  | [] => []
  | a :: rest =>
    if a.tag = "body" then []
    else if a.tag ∈ semanticElements then ancestorDescriptor a :: collectParents rest
    else collectParents rest

/-- `_find_parent_element`: the outermost→innermost `" > "`-joined path
of collected ancestors, or the literal `"body"` when none. -/
def findParentElement (ancs : List Anc) : String :=
  let parents := collectParents ancs
  if parents ≠ [] then " > ".intercalate parents.reverse else "body"

/-- The spec's description of the same walk (claim C6): take ancestors
up to (but excluding) the body element, keep those with semantic tags,
map to descriptors, reverse to outermost-first and join; default
`"body"`. -/
def specParentPath (ancs : List Anc) : String :=
  let collected :=
    ((ancs.takeWhile (fun a => a.tag ≠ "body")).filter
        (fun a => a.tag ∈ semanticElements)).map ancestorDescriptor
  if collected = [] then "body" else " > ".intercalate collected.reverse

/-! ## `_extract_links` (lines 144-170)

`urljoin(self.url, href)` and `urlparse(u).netloc` are external library
calls, passed in as the oracles `joinUrl` and `netlocOf`. -/

/-- A link record as produced by `_extract_links`. -/
structure Link0 where
  url : String
  link_type : String
  anchor_text : String
  parent_element : String
deriving Repr, DecidableEq

/-- All hyperlink anchors (`soup.find_all('a', href=True)`) paired with
their ancestor chains (innermost first), in document order. -/
def collectAnchors : List Elem → List Anc → List (Elem × List Anc)
  | [], _ => []
  | .text _ :: rest, ancs => collectAnchors rest ancs
  | .tag n attrs cls children :: rest, ancs =>
    let self := Elem.tag n attrs cls children
    (if n = "a" && (self.attr "href").isSome then [(self, ancs)] else [])
      ++ collectAnchors children (⟨n, self.idAttr, cls⟩ :: ancs)
      ++ collectAnchors rest ancs

/-- `_extract_links`: resolve each href against the page URL, drop
non-http(s) results, classify internal by exact host equality with the
page's own host, record stripped anchor text (truncated to 500
characters) and the semantic parent path. -/
def extractLinks (pageUrl : String) (joinUrl : String → String → String)
    (netlocOf : String → String) (soup : Elem) : List Link0 :=
  let baseDomain := netlocOf pageUrl
  (collectAnchors soup.childList []).filterMap fun (anchor, ancs) =>
    let href := (anchor.attr "href").getD ""
    let fullUrl := joinUrl pageUrl href
    if fullUrl.startsWith "http://" || fullUrl.startsWith "https://" then
      some
        { url := fullUrl
          link_type := if netlocOf fullUrl = baseDomain then "internal" else "external"
          anchor_text := anchor.getTextStrip.take 500
          parent_element := findParentElement ancs }
    else none

/-! ## `_check_link_status` (lines 201-224)

The network probe (`session.head`) is the oracle
`probe : String → Option ℕ`: `some code` for a response with that
status, `none` for any `RequestException`. -/

/-- A link record after status checking. -/
structure LinkS where
  url : String
  link_type : String
  anchor_text : String
  parent_element : String
  status_code : Option ℕ
  is_broken : Bool
deriving Repr, DecidableEq

/-- The body of the first loop of `_check_link_status`: probe one link,
record the status code, and mark it broken iff the code is ≥ 400; any
probe failure records `None` and broken. -/
def probeLink (probe : String → Option ℕ) (l : Link0) : LinkS :=
  match probe l.url with
  | some code =>
    { url := l.url, link_type := l.link_type, anchor_text := l.anchor_text
      parent_element := l.parent_element
      status_code := some code, is_broken := decide (code ≥ 400) }
  | none =>
    { url := l.url, link_type := l.link_type, anchor_text := l.anchor_text
      parent_element := l.parent_element
      status_code := none, is_broken := true }

/-- The second loop of `_check_link_status`: links past the cap are left
unchecked. -/
def uncheckedLink (l : Link0) : LinkS :=
  { url := l.url, link_type := l.link_type, anchor_text := l.anchor_text
    parent_element := l.parent_element
    status_code := none, is_broken := false }

/-- `_check_link_status(links, max_checks=50)`: probe the first
`maxChecks` links in order, mark the rest unchecked. -/
def checkLinkStatus (probe : String → Option ℕ) (links : List Link0)
    (maxChecks : ℕ := 50) : List LinkS :=
  (links.take maxChecks).map (probeLink probe)
    ++ (links.drop maxChecks).map uncheckedLink

/-! ## `_analyze_accessibility` (lines 298-332) -/

/-- Input elements matched by
`soup.find_all('input', type=['text','email','password','tel'])`:
the `type` attribute must be present and equal to one of the four. -/
def isFormInput (e : Elem) : Bool :=
  e.tagName = "input" &&
    match e.attr "type" with
    | some t => t ∈ ["text", "email", "password", "tel"]
    | none => false

/-- The body of the form-label loop: an input is penalised iff its `id`
attribute is truthy and no `label[for=id]` exists in the document.
An input without a (truthy) `id` is never penalised. -/
def inputPenalized (soup : Elem) (inp : Elem) : Bool :=
  match inp.attr "id" with
  | some iid =>
    if iid ≠ "" then
      (findFirst soup (fun l => l.tagName = "label" && l.attr "for" = some iid)).isNone
    else false
  | none => false

/-- `_analyze_accessibility`: image-alt scaling (Python `int(...)` is
`⌊·⌋` here, the operand being non-negative), H1-count penalties, −5 per
penalised form input, +5 (capped at 100) when any element carries a
`role` attribute, final clamp to `[0,100]`. -/
def analyzeAccessibility (soup : Elem) : ℤ :=
  let score : ℤ := 100
  let images := findAll soup (fun e => e.tagName = "img")
  let imagesWithoutAlt := images.filter (fun e => !e.truthyAttr "alt")
  let score : ℤ :=
    if 0 < images.length then
      ⌊(score : ℚ) * (1/2 + 1/2 * (1 - (imagesWithoutAlt.length : ℚ) / (images.length : ℚ)))⌋
    else score
  let h1Count := (findAll soup (fun e => e.tagName = "h1")).length
  let score : ℤ :=
    if h1Count = 0 then score - 15 else if h1Count > 1 then score - 10 else score
  let inputs := findAll soup isFormInput
  let score : ℤ :=
    inputs.foldl (fun sc inp => if inputPenalized soup inp then sc - 5 else sc) score
  let ariaElements := findAll soup (fun e => (e.attr "role").isSome)
  let score : ℤ := if 0 < ariaElements.length then min 100 (score + 5) else score
  max 0 (min 100 score)

/-- The count the spec's claim C7 speaks of: inputs of the four types
lacking an associated label, *regardless of the id attribute* (an input
with no truthy id can have no `label[for=...]`, so it counts as
labelless here). -/
def labellessInputsAll (soup : Elem) : List Elem :=
  (findAll soup isFormInput).filter fun inp =>
    match inp.attr "id" with
    | some iid =>
      if iid ≠ "" then
        (findFirst soup (fun l => l.tagName = "label" && l.attr "for" = some iid)).isNone
      else true
    | none => true

/-- The inputs the loop actually penalises: type-matching inputs with a
truthy `id` and no `label[for=id]`. -/
def penalizedInputs (soup : Elem) : List Elem :=
  (findAll soup isFormInput).filter (inputPenalized soup)

/-- The accessibility score as §4.5 of the spec describes it, with the
form-label rule as amended for claim C7: `−5` per type-matching input
that carries a truthy `id` and lacks a `label` with a matching `for`
(inputs without a truthy `id` are not penalised). -/
def specAccessibility (soup : Elem) : ℤ :=
  let images := findAll soup (fun e => e.tagName = "img")
  let imagesWithoutAlt := images.filter (fun e => !e.truthyAttr "alt")
  let afterImages : ℤ :=
    if 0 < images.length then
      ⌊(100 : ℚ) * (1/2 + 1/2 * (1 - (imagesWithoutAlt.length : ℚ) / (images.length : ℚ)))⌋
    else 100
  let h1Count := (findAll soup (fun e => e.tagName = "h1")).length
  let afterH1 : ℤ :=
    if h1Count = 0 then afterImages - 15
    else if h1Count > 1 then afterImages - 10
    else afterImages
  let afterInputs : ℤ := afterH1 - 5 * ((penalizedInputs soup).length : ℤ)
  let afterAria : ℤ :=
    if 0 < (findAll soup (fun e => (e.attr "role").isSome)).length then
      min 100 (afterInputs + 5)
    else afterInputs
  max 0 (min 100 afterAria)

/-! ## `_analyze_best_practices` (lines 334-367)

`str(soup).strip().lower().startswith('<!doctype')` inspects the raw
serialized document, which the element tree does not retain; it is
passed in as the oracle flag `docStartsWithDoctype`. -/

/-- Case-insensitive header lookup (requests' `CaseInsensitiveDict`). -/
def headerGet (headers : List (String × String)) (k : String) : Option String :=
  (headers.find? (fun kv => kv.1.toLower = k.toLower)).map (·.2)

/-- `header in response.headers` (case-insensitive). -/
def headerPresent (headers : List (String × String)) (k : String) : Bool :=
  (headerGet headers k).isSome

/-- The three security headers checked, in check order. -/
def securityHeaders : List String :=
  ["X-Content-Type-Options", "X-Frame-Options", "Strict-Transport-Security"]

/-- `_analyze_best_practices`. -/
def analyzeBestPractices (url : String) (soup : Elem)
    (headers : List (String × String)) (docStartsWithDoctype : Bool) : ℤ :=
  let score : ℤ := 100
  let score : ℤ := if !url.startsWith "https://" then score - 20 else score
  let score : ℤ :=
    if (findFirst soup (isMetaNamed "viewport")).isNone then score - 15 else score
  let score : ℤ := if !docStartsWithDoctype then score - 10 else score
  let charsetFound :=
    (findFirst soup (fun e => e.tagName = "meta" && (e.attr "charset").isSome)).isSome
      || (findFirst soup
            (fun e => e.tagName = "meta" && e.attr "http-equiv" = some "Content-Type")).isSome
  let score : ℤ := if !charsetFound then score - 10 else score
  let score : ℤ :=
    securityHeaders.foldl
      (fun sc h => if !headerPresent headers h then sc - 5 else sc) score
  let httpResources := findAll soup
    (fun e =>
      (e.tagName ∈ (["script", "link", "img"] : List String) : Bool) &&
        match e.attr "src" with
        | some v => v.startsWith "http://"
        | none => false)
  let score : ℤ :=
    if 0 < httpResources.length then
      score - min 20 (2 * (httpResources.length : ℤ))
    else score
  max 0 score

/-! ## `_analyze_seo` (lines 369-407) -/

/-- The `rel` attribute as BeautifulSoup's multi-valued token list. -/
def relTokens (e : Elem) : List String :=
  (((e.attr "rel").getD "").splitOn " ").filter (fun s => s ≠ "")

/-- `_analyze_seo`. -/
def analyzeSeo (soup : Elem) : ℤ :=
  let score : ℤ := 100
  let score : ℤ :=
    match (findFirst soup (fun e => e.tagName = "title")).map Elem.getTextStrip with
    | none => score - 20
    | some t =>
      if t = "" then score - 20
      else if t.length < 30 || t.length > 60 then score - 10
      else score
  let score : ℤ :=
    match findFirst soup (isMetaNamed "description") with
    | none => score - 20
    | some m =>
      if !m.truthyAttr "content" then score - 20
      else
        let c := (m.attr "content").getD ""
        if c.length < 120 || c.length > 160 then score - 10 else score
  let score : ℤ :=
    if (findFirst soup (fun e => e.tagName = "h1")).isNone then score - 15 else score
  let score : ℤ :=
    if (findFirst soup
          (fun e => e.tagName = "link" && "canonical" ∈ relTokens e)).isNone then
      score - 10
    else score
  let score : ℤ :=
    match findFirst soup (isMetaNamed "robots") with
    | some r =>
      if strContains ((r.attr "content").getD "").toLower "noindex" then score - 15
      else score
    | none => score
  let structuredData := findAll soup
    (fun e => e.tagName = "script" && e.attr "type" = some "application/ld+json")
  let score : ℤ := if 0 < structuredData.length then min 100 (score + 10) else score
  max 0 score

/-! ## `_run_lighthouse_audit` (lines 226-271) and `crawl` (lines 20-69)

The `except Exception` fallback of `_run_lighthouse_audit` is
unreachable in this total embedding (no modelled operation raises), so
the audit is the `try` body.  The audit's float `overall` is modelled by
the exact rational sum; the nearest-integer theorem for claim C3 covers
every float evaluation within `floatSlack` of it.  The `audits` finding
list carries free-text diagnostics only and is not modelled. -/

/-- Python `round(x, 2)`. -/
def pyRound2 (x : ℚ) : ℚ := (pyRound (x * 100) : ℚ) / 100

structure AuditMetrics where
  response_time_ms : ℤ
  page_size_kb : ℚ
  dom_size : ℕ
deriving Repr, DecidableEq

structure LighthouseScore where
  overall : ℤ
  performance : ℤ
  accessibility : ℤ
  best_practices : ℤ
  seo : ℤ
  metrics : AuditMetrics
deriving Repr, DecidableEq

/-- `_run_lighthouse_audit`. -/
def runLighthouseAudit (url : String) (soup : Elem)
    (headers : List (String × String)) (docStartsWithDoctype : Bool)
    (contentLength : ℕ) (responseTime : ℚ) : LighthouseScore :=
  let performanceScore := calculatePerformanceScore responseTime contentLength
  let accessibilityScore := analyzeAccessibility soup
  let bestPracticesScore := analyzeBestPractices url soup headers docStartsWithDoctype
  let seoScore := analyzeSeo soup
  { overall := overallScoreOf
      (auditWeightedSum performanceScore accessibilityScore bestPracticesScore seoScore)
    performance := performanceScore
    accessibility := accessibilityScore
    best_practices := bestPracticesScore
    seo := seoScore
    metrics :=
      { response_time_ms := pyRound (responseTime * 1000)
        page_size_kb := pyRound2 ((contentLength : ℚ) / 1024)
        dom_size := (elemListDescendants soup.childList).length } }

/-- The fetched response (the `requests` call is the oracle producing
it): final status, headers, `len(response.content)`, the parsed soup,
and the serialization flag used by the doctype check. -/
structure HttpResponse where
  status_code : ℕ
  headers : List (String × String)
  contentLength : ℕ
  soup : Elem
  docStartsWithDoctype : Bool

/-- The page-info block of a successful analysis. -/
structure PageInfoR where
  status_code : ℕ
  title : String
  meta_description : String
  content_type : String
  response_time : ℚ
  page_size : ℕ
  html_structure : Option SNode
  schema_markup : List String
  lighthouse_score : LighthouseScore

/-- The analysis result returned by `crawl`. -/
structure CrawlResult where
  success : Bool
  error : Option String
  page_info : Option PageInfoR
  links : List LinkS
  total_links : ℕ
  internal_links : ℕ
  external_links : ℕ

/-- `crawl`: on a fetch failure (`requests.exceptions.RequestException`,
modelled by `Except.error`) the analysis aborts with the failure record;
otherwise the full pipeline runs. -/
def crawl (url : String) (fetch : Except String HttpResponse)
    (responseTime : ℚ) (joinUrl : String → String → String)
    (netlocOf : String → String) (parseOk : String → Bool)
    (probe : String → Option ℕ) : CrawlResult :=
  match fetch with
  | .error e =>
    { success := false, error := some e, page_info := none, links := []
      total_links := 0, internal_links := 0, external_links := 0 }
  | .ok response =>
    let soup := response.soup
    let links := extractLinks url joinUrl netlocOf soup
    let linksWithStatus := checkLinkStatus probe links 50
    let lighthouse := runLighthouseAudit url soup response.headers
      response.docStartsWithDoctype response.contentLength responseTime
    { success := true
      error := none
      page_info := some
        { status_code := response.status_code
          title := extractTitle soup
          meta_description := extractMetaDescription soup
          content_type := (headerGet response.headers "Content-Type").getD ""
          response_time := pyRound2 responseTime
          page_size := response.contentLength
          html_structure := extractHtmlStructure soup
          schema_markup := extractSchemaMarkup parseOk soup
          lighthouse_score := lighthouse }
      links := linksWithStatus
      total_links := linksWithStatus.length
      internal_links := (linksWithStatus.filter (fun l => l.link_type = "internal")).length
      external_links := (linksWithStatus.filter (fun l => l.link_type = "external")).length }

end SmartCrawler

namespace GraphViews

open SmartCrawler (strContains)

/-! ## `api_graph_data` (views.py lines 100-288)

The builder reads the persisted `Link` rows of a job.  A row's `url` is
only ever consumed through `urlparse(link.url)` (`netloc` and `path`),
so a row is embedded with those two components alongside the raw URL.
`parent_element` is nullable in the database (`null=True, blank=True`),
hence an `Option`. -/

/-- A persisted link row, in the order the view iterates them. -/
structure DLink where
  url : String
  host : String
  path : String
  link_type : String
  parent_element : Option String
  status_code : Option ℤ
  is_broken : Bool
  anchor_text : String
deriving Repr, DecidableEq

/-- `link.parent_element or 'body'`. -/
def DLink.parentOrBody (l : DLink) : String :=
  match l.parent_element with
  | some s => if s = "" then "body" else s
  | none => "body"

/-- Python `str(n)` for a counter: decimal rendering. -/
def natStr (n : ℕ) : String :=
  if n = 0 then "0" else ⟨((Nat.digits 10 n).map Nat.digitChar).reverse⟩

/-- A counter-based node id, e.g. `element_3`. -/
def mkId (prefixStr : String) (n : ℕ) : String := prefixStr ++ natStr n

/-- A graph node.  Fields absent for a given node type in the JSON are
`Option`-valued and `none` there. -/
structure GNode where
  id : String
  label : String
  url : String
  type : String
  domain : String
  layer : ℕ
  path : Option String := none
  status_code : Option (Option ℤ) := none
  is_broken : Option Bool := none
  anchor_text : Option String := none
  parent_element : Option String := none
deriving Repr, DecidableEq

/-- A graph edge (`from`/`to` are `from_id`/`to_id` here). -/
structure GEdge where
  from_id : String
  to_id : String
  path : Option String := none
  count : Option ℕ := none
deriving Repr, DecidableEq

/-- The `element_layer_map` dict lookup with default 1. -/
def elementLayerMap (t : String) : ℕ :=
  if t = "header" then 1
  else if t = "nav" then 1
  else if t = "main" then 1
  else if t = "footer" then 1
  else if t = "aside" then 1
  else if t = "section" then 2
  else if t = "article" then 2
  else if t = "body" then 1
  else 1

/-- `re.split(r'[#.]', s)[0]`, which is also
`s.split('#')[0].split('.')[0]`: the prefix of `s` before the first
`'#'` or `'.'` character. -/
def baseTagOf (s : String) : String :=
  ⟨s.data.takeWhile (fun ch => ch ≠ '#' && ch ≠ '.')⟩

/-- The layer claim C8 asserts: the fixed table applied to the *leading
tag token* of the path (the first segment's tag, i.e. the prefix before
the first `'#'`, `'.'` or `' '`). -/
def claimGroupLayer (path : String) : ℕ :=
  elementLayerMap ⟨path.data.takeWhile (fun ch => ch ≠ '#' && ch ≠ '.' && ch ≠ ' ')⟩

/-- Insertion-ordered grouping (a Python dict of lists): append the link
to its key's group, creating the group at the end on first sight. -/
def insertGroup (groups : List (String × List DLink)) (k : String) (l : DLink) :
    List (String × List DLink) :=
  match groups with
  | [] => [(k, [l])]
  | (k', g) :: rest =>
    if k' = k then (k', g ++ [l]) :: rest else (k', g) :: insertGroup rest k l

/-- `links_by_element`: internal links grouped by
`link.parent_element or 'body'`, keys in first-occurrence order. -/
def groupByParent (links : List DLink) : List (String × List DLink) :=
  links.foldl (fun acc l => insertGroup acc l.parentOrBody l) []

/-- An entry of the `element_nodes` dict: node id and layer. -/
structure ElemEntry where
  id : String
  layer : ℕ
deriving Repr, DecidableEq

/-- Association-list lookup for the string-keyed dicts of the view. -/
def alookup {α : Type} (m : List (String × α)) (k : String) : Option α :=
  match m with
  | [] => none
  | (k', v) :: rest => if k' = k then some v else alookup rest k

/-- Result of the element-group pass: final counter, the
`element_nodes` dict, and the created nodes and edges in order. -/
structure EPOut where
  counter : ℕ
  elementNodes : List (String × ElemEntry)
  nodes : List GNode
  edges : List GEdge
deriving Repr, DecidableEq

/-- First pass of the view: for every group with more than one link,
create a synthetic element-group node (id `element_<counter>`, layer
from `element_layer_map` applied to the base tag of the path) and a
root→group edge. -/
def elementPass (mainUrl mainDomain : String) :
    List (String × List DLink) → ℕ → EPOut
  | [], c => ⟨c, [], [], []⟩
  | (pe, gl) :: rest, c =>
    if gl.length > 1 then
      let nodeId := mkId "element_" c
      let layer := elementLayerMap (baseTagOf pe)
      let r := elementPass mainUrl mainDomain rest (c + 1)
      ⟨r.counter, (pe, ⟨nodeId, layer⟩) :: r.elementNodes,
        { id := nodeId, label := pe.toUpper, url := mainUrl,
          type := "element_group", domain := mainDomain, layer := layer,
          parent_element := some pe } :: r.nodes,
        { from_id := "root", to_id := nodeId } :: r.edges⟩
    else
      elementPass mainUrl mainDomain rest c

/-- The per-link node and edge of the second pass. -/
def internalNodeEdge (elementNodes : List (String × ElemEntry))
    (pe : String) (groupSize : ℕ) (c : ℕ) (l : DLink) : GNode × GEdge :=
  let path0 := if l.path = "" then "/" else l.path
  let nodeId := mkId "internal_" c
  let pathSegments := (path0.splitOn "/").filter (fun p => p ≠ "")
  let baseTag := if pe ≠ "" then baseTagOf pe else "body"
  let baseLayer := elementLayerMap baseTag
  let layer := baseLayer + min pathSegments.length 2 + 1
  let label :=
    if path0 = "/" then "Home"
    else
      let segments := (stripSlashes path0).splitOn "/"
      let lab := segments.getLastD "Page"
      if lab.length > 20 then lab.take 18 ++ ".." else lab
  let node : GNode :=
    { id := nodeId, label := label, url := l.url, type := "internal",
      domain := l.host, layer := layer, path := some path0,
      status_code := some l.status_code, is_broken := some l.is_broken,
      anchor_text := some (l.anchor_text.take 30),
      parent_element := some pe }
  let edge : GEdge :=
    match alookup elementNodes pe with
    | some entry =>
      if groupSize > 1 then { from_id := entry.id, to_id := nodeId, path := some path0 }
      else { from_id := "root", to_id := nodeId, path := some path0 }
    | none => { from_id := "root", to_id := nodeId, path := some path0 }
  (node, edge)
where
  /-- Python `s.strip('/')`. -/
  stripSlashes (s : String) : String :=
    ⟨(s.data.dropWhile (fun ch => ch = '/')).reverse.dropWhile (fun ch => ch = '/') |>.reverse⟩

/-- Result of the internal-link or external-link pass. -/
structure NPOut where
  counter : ℕ
  nodes : List GNode
  edges : List GEdge
deriving Repr, DecidableEq

/-- Second pass over one group: a node and an edge per link. -/
def internalGroupPass (elementNodes : List (String × ElemEntry))
    (pe : String) (groupSize : ℕ) : List DLink → ℕ → NPOut
  | [], c => ⟨c, [], []⟩
  | l :: rest, c =>
    let ne := internalNodeEdge elementNodes pe groupSize c l
    let r := internalGroupPass elementNodes pe groupSize rest (c + 1)
    ⟨r.counter, ne.1 :: r.nodes, ne.2 :: r.edges⟩

/-- Second pass of the view: every internal link becomes its own node;
its edge originates from its group's element node when one exists
(group size > 1), else from root. -/
def internalPass (elementNodes : List (String × ElemEntry)) :
    List (String × List DLink) → ℕ → NPOut
  | [], c => ⟨c, [], []⟩
  | (pe, gl) :: rest, c =>
    let r1 := internalGroupPass elementNodes pe gl.length gl c
    let r2 := internalPass elementNodes rest r1.counter
    ⟨r2.counter, r1.nodes ++ r2.nodes, r1.edges ++ r2.edges⟩

/-- An entry of the `external_domains` dict: node id and running count. -/
structure ExtEntry where
  node_id : String
  count : ℕ
deriving Repr, DecidableEq

/-- Update the running count of an existing entry. -/
def bumpExt (m : List (String × ExtEntry)) (k : String) :
    List (String × ExtEntry) :=
  match m with
  | [] => []
  | (k', v) :: rest =>
    if k' = k then (k', { v with count := v.count + 1 }) :: rest
    else (k', v) :: bumpExt rest k

/-- Third pass of the view: external links grouped by destination host.
The first link to a host creates the host node (layer 1, label = host);
every link adds a root→node edge carrying the incremented running
count. -/
def externalPass :
    List DLink → ℕ → List (String × ExtEntry) → NPOut
  | [], c, _ => ⟨c, [], []⟩
  | l :: rest, c, dm =>
    match alookup dm l.host with
    | some entry =>
      let r := externalPass rest c (bumpExt dm l.host)
      ⟨r.counter, r.nodes,
        { from_id := "root", to_id := entry.node_id,
          count := some (entry.count + 1) } :: r.edges⟩
    | none =>
      let nodeId := mkId "external_" c
      let node : GNode :=
        { id := nodeId, label := l.host, url := l.url, type := "external",
          domain := l.host, layer := 1,
          path := some (if l.path = "" then "/" else l.path),
          status_code := some l.status_code, is_broken := some l.is_broken,
          parent_element := some l.parentOrBody }
      let r := externalPass rest (c + 1)
        (bumpExt (dm ++ [(l.host, { node_id := nodeId, count := 0 })]) l.host)
      ⟨r.counter, node :: r.nodes,
        { from_id := "root", to_id := nodeId, count := some 1 } :: r.edges⟩

/-- The key → node-id shape of the `external_domains` dict (the part
`bumpExt` leaves untouched). -/
def dmShape (dm : List (String × ExtEntry)) : List (String × String) :=
  dm.map (fun kv => (kv.1, kv.2.node_id))

/-- Invariant of the `external_domains` dict against the id counter:
keys and node ids are pairwise distinct, and no stored node id uses a
counter value that is still to be allocated. -/
def DmInv (dm : List (String × ExtEntry)) (c : ℕ) : Prop :=
  (dmShape dm).Pairwise (fun a b => a.1 ≠ b.1 ∧ a.2 ≠ b.2) ∧
  ∀ kv ∈ dmShape dm, ∀ j, c ≤ j → kv.2 ≠ mkId "external_" j

/-- The graph statistics block. -/
structure GStats where
  total_nodes : ℕ
  total_edges : ℕ
  internal : ℕ
  external : ℕ
  layers : ℕ
deriving Repr, DecidableEq

/-- The view's JSON payload. -/
structure GraphData where
  nodes : List GNode
  edges : List GEdge
  stats : GStats
deriving Repr, DecidableEq

/-- The root node. -/
def rootNode (mainUrl mainDomain : String) : GNode :=
  { id := "root", label := mainDomain, url := mainUrl, type := "root",
    domain := mainDomain, layer := 0 }

/-- `api_graph_data`: root node, the three passes (internal links capped
at 50, external at 30, one shared id counter starting at 0), and the
stats (`layers` is Python's `max` over the node layers, total on the
never-empty node list). -/
def apiGraphData (mainUrl mainDomain : String) (links : List DLink) :
    GraphData :=
  let internalLinks := (links.filter (fun l => l.link_type = "internal")).take 50
  let externalLinks := (links.filter (fun l => l.link_type = "external")).take 30
  let groups := groupByParent internalLinks
  let r1 := elementPass mainUrl mainDomain groups 0
  let r2 := internalPass r1.elementNodes groups r1.counter
  let r3 := externalPass externalLinks r2.counter []
  let nodes := rootNode mainUrl mainDomain :: (r1.nodes ++ r2.nodes ++ r3.nodes)
  let edges := r1.edges ++ r2.edges ++ r3.edges
  { nodes := nodes
    edges := edges
    stats :=
      { total_nodes := nodes.length
        total_edges := edges.length
        internal := (nodes.filter (fun n => n.type = "internal")).length
        external := (nodes.filter (fun n => n.type = "external")).length
        layers := (nodes.map (fun n => n.layer)).foldl max 0 } }

/-! ## Concrete inputs used to instantiate the theorems -/

/-- An internal link row with the given parent path and URL path. -/
def exInternalLink (pe path : String) : DLink :=
  { url := "https://ex.com" ++ path, host := "ex.com", path := path,
    link_type := "internal", parent_element := some pe,
    status_code := some 200, is_broken := false, anchor_text := "x" }

/-- An external link row to the host `other.com`. -/
def exExternalLink : DLink :=
  { url := "https://other.com/p", host := "other.com", path := "/p",
    link_type := "external", parent_element := some "nav",
    status_code := some 200, is_broken := false, anchor_text := "y" }

end GraphViews

namespace SmartCrawler

/-- A page whose only link-bearing content is a `section` wrapped in a
non-semantic `p` element: `<body><p><section id="s1"/></p></body>`. -/
def exWrappedSectionSoup : Elem :=
  .tag "[document]" [] []
    [.tag "html" [] []
      [.tag "body" [] []
        [.tag "p" [] []
          [.tag "section" [("id", "s1")] [] []]]]]

/-- A page with one H1 and one labelless `input[type=text]` that has no
`id` attribute (and no images, labels or `role` attributes). -/
def exNoIdInputSoup : Elem :=
  .tag "[document]" [] []
    [.tag "html" [] []
      [.tag "body" [] []
        [.tag "h1" [] [] [.text "T"],
         .tag "input" [("type", "text")] [] []]]]

/-- A link record used to instantiate the status-checker theorem. -/
def exLink0 : Link0 :=
  { url := "https://ex.com/a", link_type := "internal",
    anchor_text := "t", parent_element := "body" }

end SmartCrawler

/-! # Theorems -/

namespace SmartCrawler

/-! ## Claim C4: performance-score bands -/

theorem sizeGt5Iff (size : ℕ) :
    ((5 : ℚ) < (size : ℚ) / (1024 * 1024)) ↔ (5 * (1024 * 1024) < size) := by
  rw [lt_div_iff₀ (by norm_num : (0 : ℚ) < 1024 * 1024)]
  constructor <;> intro h <;> exact_mod_cast h

theorem sizeGt3Iff (size : ℕ) :
    ((3 : ℚ) < (size : ℚ) / (1024 * 1024)) ↔ (3 * (1024 * 1024) < size) := by
  rw [lt_div_iff₀ (by norm_num : (0 : ℚ) < 1024 * 1024)]
  constructor <;> intro h <;> exact_mod_cast h

theorem sizeGt1Iff (size : ℕ) :
    ((1 : ℚ) < (size : ℚ) / (1024 * 1024)) ↔ (1024 * 1024 < size) := by
  rw [lt_div_iff₀ (by norm_num : (0 : ℚ) < 1024 * 1024)]
  constructor
  · intro h
    have h2 : ((1024 * 1024 : ℕ) : ℚ) < (size : ℚ) := by push_cast; linarith
    exact_mod_cast h2
  · intro h
    have h2 : ((1024 * 1024 : ℕ) : ℚ) < (size : ℚ) := by exact_mod_cast h
    push_cast at h2
    linarith

/-- C4: for every response time `t > 0` and page size, the performance
score is `100` plus the (exclusive highest-match) response-time band
penalty and the (exclusive highest-match) page-size band penalty,
clamped below at `0`. -/
theorem performance_score_bands (t : ℚ) (size : ℕ) (ht : 0 < t) :
    calculatePerformanceScore t size =
      max 0 (100 + specResponseTimePenalty t + specPageSizePenalty size) := by
  unfold calculatePerformanceScore specResponseTimePenalty specPageSizePenalty
  dsimp only
  simp only [gt_iff_lt, sizeGt5Iff, sizeGt3Iff, sizeGt1Iff]
  split_ifs <;> norm_num

/-- Witness for C4 at `t = 2`s, `size = 2 MiB`. -/
theorem performance_score_bands_witness :
    (0 : ℚ) < 2 ∧
      calculatePerformanceScore 2 (2 * 1024 * 1024) =
        max 0 (100 + specResponseTimePenalty 2 + specPageSizePenalty (2 * 1024 * 1024)) :=
  ⟨by norm_num, performance_score_bands 2 (2 * 1024 * 1024) (by norm_num)⟩

/-! ## Claim C3: the overall score is the weighted sum rounded to the
nearest integer -/

/-- `pyRound` never moves a value by more than `1/2`. -/
theorem abs_pyRound_sub_le (q : ℚ) : |(pyRound q : ℚ) - q| ≤ 1/2 := by
  have hle : (⌊q⌋ : ℚ) ≤ q := Int.floor_le q
  have hlt : q < ⌊q⌋ + 1 := Int.lt_floor_add_one q
  unfold pyRound
  dsimp only
  split_ifs with h1 h2 h3
  · rw [abs_sub_comm, abs_of_nonneg (by linarith)]; linarith
  · push_cast
    rw [abs_of_nonneg (by linarith)]
    linarith
  · rw [abs_sub_comm, abs_of_nonneg (by linarith)]; linarith
  · push_cast
    rw [abs_of_nonneg (by linarith)]
    linarith

/-- The exact weighted sum is `(6p + 5a + 5b + 4s) / 20`. -/
theorem auditWeightedSum_eq (p a b s : ℤ) :
    auditWeightedSum p a b s = ((6 * p + 5 * a + 5 * b + 4 * s : ℤ) : ℚ) / 20 := by
  unfold auditWeightedSum
  push_cast
  ring

/-- C3: for all sub-scores in `[0,100]`, the overall audit score — the
Python `round` of the float evaluation `fl` of
`0.30·p + 0.25·a + 0.25·b + 0.20·s` (any value within `floatSlack` of
the exact weighted sum) — is a nearest integer to the exact weighted
combination: no integer is strictly closer. -/
theorem overall_score_nearest (p a b s : ℤ)
    (hp : 0 ≤ p ∧ p ≤ 100) (ha : 0 ≤ a ∧ a ≤ 100)
    (hb : 0 ≤ b ∧ b ≤ 100) (hs : 0 ≤ s ∧ s ≤ 100)
    (fl : ℚ) (hfl : |fl - auditWeightedSum p a b s| ≤ floatSlack) (k : ℤ) :
    |auditWeightedSum p a b s - (overallScoreOf fl : ℚ)| ≤
      |auditWeightedSum p a b s - (k : ℚ)| := by
  set w := auditWeightedSum p a b s with hw
  set n := overallScoreOf fl with hn
  have h1 : |(n : ℚ) - fl| ≤ 1/2 := abs_pyRound_sub_le fl
  have hslack : floatSlack = 1 / 2 ^ 40 := rfl
  have h2 : |(n : ℚ) - w| ≤ 1/2 + 1 / 2 ^ 40 := by
    calc |(n : ℚ) - w| ≤ |(n : ℚ) - fl| + |fl - w| := abs_sub_le _ _ _
    _ ≤ 1/2 + 1 / 2 ^ 40 := by rw [hslack] at hfl; linarith
  set T : ℤ := 6 * p + 5 * a + 5 * b + 4 * s with hT
  have hwT : w = (T : ℚ) / 20 := by rw [hw, hT]; exact auditWeightedSum_eq p a b s
  -- |20n − T| is an integer at most 10 + 20/2^40 < 11, hence ≤ 10
  have h3 : |20 * n - T| ≤ 10 := by
    have h4 : |((20 * n - T : ℤ) : ℚ)| ≤ 10 + 20 / 2 ^ 40 := by
      have : ((20 * n - T : ℤ) : ℚ) = 20 * ((n : ℚ) - w) := by
        rw [hwT]; push_cast; ring
      rw [this, abs_mul, abs_of_pos (by norm_num : (0:ℚ) < 20)]
      nlinarith [abs_nonneg ((n : ℚ) - w)]
    have h5 : ((|20 * n - T| : ℤ) : ℚ) < 11 := by
      rw [Int.cast_abs]
      calc |((20 * n - T : ℤ) : ℚ)| ≤ 10 + 20 / 2 ^ 40 := h4
      _ < 11 := by norm_num
    have h6 : |20 * n - T| < 11 := by exact_mod_cast h5
    omega
  have h7 : |w - (n : ℚ)| ≤ 1/2 := by
    have : |w - (n : ℚ)| = ((|20 * n - T| : ℤ) : ℚ) / 20 := by
      rw [Int.cast_abs, hwT]
      push_cast
      rw [abs_sub_comm]
      rw [show (20 * (n : ℚ) - T) = 20 * ((n : ℚ) - T / 20) by ring]
      rw [abs_mul, abs_of_pos (by norm_num : (0:ℚ) < 20)]
      ring
    rw [this]
    have : ((|20 * n - T| : ℤ) : ℚ) ≤ 10 := by exact_mod_cast h3
    linarith
  rcases eq_or_ne k n with rfl | hk
  · exact le_refl _
  · have hint : (1 : ℚ) ≤ |(k : ℚ) - (n : ℚ)| := by
      have : (1 : ℤ) ≤ |k - n| := Int.one_le_abs (sub_ne_zero.mpr hk)
      calc (1 : ℚ) = ((1 : ℤ) : ℚ) := by norm_num
      _ ≤ ((|k - n| : ℤ) : ℚ) := by exact_mod_cast this
      _ = |(k : ℚ) - (n : ℚ)| := by rw [Int.cast_abs]; push_cast; ring_nf
    have : |(k : ℚ) - (n : ℚ)| ≤ |w - (k : ℚ)| + |w - (n : ℚ)| := by
      calc |(k : ℚ) - (n : ℚ)| ≤ |(k : ℚ) - w| + |w - (n : ℚ)| := abs_sub_le _ _ _
      _ = |w - (k : ℚ)| + |w - (n : ℚ)| := by rw [abs_sub_comm ((k : ℚ)) w]
    linarith

/-- Witness for C3 at `p = a = b = s = 100`, `fl` the exact sum `100`,
`k = 37`. -/
theorem overall_score_nearest_witness :
    |auditWeightedSum 100 100 100 100 - (overallScoreOf 100 : ℚ)| ≤
      |auditWeightedSum 100 100 100 100 - ((37 : ℤ) : ℚ)| :=
  overall_score_nearest 100 100 100 100
    ⟨by norm_num, by norm_num⟩ ⟨by norm_num, by norm_num⟩
    ⟨by norm_num, by norm_num⟩ ⟨by norm_num, by norm_num⟩
    100 (by norm_num [auditWeightedSum, floatSlack]) 37

end SmartCrawler

namespace SmartCrawler

/-! ## Claim C5: a fetch failure aborts the whole analysis -/

/-- C5: when the page fetch raises a network-level failure the analysis
returns `success = false` with the error message, no `page_info`, an
empty link list and zero link counts; and, by contrast, a successful
fetch always produces `success = true` with a populated `page_info`. -/
theorem crawl_fetch_failure :
    (∀ (url e : String) (rt : ℚ) (joinUrl : String → String → String)
        (netlocOf : String → String) (parseOk : String → Bool)
        (probe : String → Option ℕ),
      crawl url (.error e) rt joinUrl netlocOf parseOk probe =
        { success := false, error := some e, page_info := none, links := []
          total_links := 0, internal_links := 0, external_links := 0 }) ∧
    (∀ (url : String) (resp : HttpResponse) (rt : ℚ)
        (joinUrl : String → String → String) (netlocOf : String → String)
        (parseOk : String → Bool) (probe : String → Option ℕ),
      (crawl url (.ok resp) rt joinUrl netlocOf parseOk probe).success = true ∧
      (crawl url (.ok resp) rt joinUrl netlocOf parseOk probe).page_info.isSome = true ∧
      (crawl url (.ok resp) rt joinUrl netlocOf parseOk probe).error = none) := by
  constructor
  · intro url e rt joinUrl netlocOf parseOk probe
    rfl
  · intro url resp rt joinUrl netlocOf parseOk probe
    refine ⟨rfl, rfl, rfl⟩

/-! ## Claim C6: the semantic parent-element path -/

/-- The collected descriptors are those of the semantic ancestors below
the first `body`. -/
theorem collectParents_eq (ancs : List Anc) :
    collectParents ancs =
      ((ancs.takeWhile (fun a => a.tag ≠ "body")).filter
          (fun a => a.tag ∈ semanticElements)).map ancestorDescriptor := by
  induction ancs with
  | nil => rfl
  | cons a rest ih =>
    by_cases hb : a.tag = "body"
    · simp [collectParents, hb, List.takeWhile_cons]
    · by_cases hs : a.tag ∈ semanticElements
      · simp [collectParents, hb, hs, List.takeWhile_cons, ih]
      · simp [collectParents, hb, hs, List.takeWhile_cons, ih]

/-- C6: `_find_parent_element` walks the ancestors up to (but excluding)
the first `body`, keeps the semantic ones with `tag#id` / `tag.cls` /
`tag` descriptors, joins them outermost→innermost with `" > "` and
defaults to `"body"`; a link inside `<div><section id="s1">` under body
gets path `section#s1` with the `div` transparent. -/
theorem find_parent_element_spec :
    (∀ ancs : List Anc, findParentElement ancs = specParentPath ancs) ∧
    findParentElement
        [⟨"section", "s1", []⟩, ⟨"div", "", []⟩, ⟨"body", "", []⟩] = "section#s1" := by
  constructor
  · intro ancs
    unfold findParentElement specParentPath
    rw [collectParents_eq]
    dsimp only
    split_ifs with h1 h2
    all_goals first
      | rfl
      | (exact absurd h2 h1)
      | (push_neg at h1; exact absurd h1 h2)
  · rfl

end SmartCrawler

namespace SmartCrawler

/-! ## Claim C1: the link status checker -/

/-- C1: the checker returns one record per link; exactly the first 50
links (in extraction order) are probed — a probed link gets
`status_code = some code` and `is_broken` true iff `code ≥ 400`, while a
failed probe gets `status_code = none` and `is_broken = true` — and
every link past the 50-link cap gets `status_code = none` and
`is_broken = false`. -/
theorem check_link_status_spec (probe : String → Option ℕ) (links : List Link0) :
    (checkLinkStatus probe links 50).length = links.length ∧
    (∀ i l, i < 50 → links.get? i = some l →
      (checkLinkStatus probe links 50).get? i =
        some (match probe l.url with
          | some code =>
            { url := l.url, link_type := l.link_type,
              anchor_text := l.anchor_text, parent_element := l.parent_element,
              status_code := some code, is_broken := decide (code ≥ 400) }
          | none =>
            { url := l.url, link_type := l.link_type,
              anchor_text := l.anchor_text, parent_element := l.parent_element,
              status_code := none, is_broken := true })) ∧
    (∀ i l, 50 ≤ i → links.get? i = some l →
      (checkLinkStatus probe links 50).get? i =
        some { url := l.url, link_type := l.link_type,
               anchor_text := l.anchor_text, parent_element := l.parent_element,
               status_code := none, is_broken := false }) := by
  refine ⟨?_, ?_, ?_⟩
  · simp only [checkLinkStatus, List.length_append, List.length_map,
      List.length_take, List.length_drop]
    omega
  · intro i l hi hl
    have hlen : i < links.length := by
      by_contra hc
      rw [List.get?_eq_none.mpr (by omega)] at hl
      exact Option.noConfusion hl
    have hlt : i < ((links.take 50).map (probeLink probe)).length := by
      simp only [List.length_map, List.length_take]
      omega
    unfold checkLinkStatus
    rw [List.get?_append hlt, List.get?_map, List.get?_take hi, hl]
    simp only [Option.map_some']
    unfold probeLink
    cases hp : probe l.url <;> simp only [hp]
  · intro i l hi hl
    have hlen : i < links.length := by
      by_contra hc
      rw [List.get?_eq_none.mpr (by omega)] at hl
      exact Option.noConfusion hl
    have hplen : ((links.take 50).map (probeLink probe)).length = 50 := by
      simp only [List.length_map, List.length_take]
      omega
    unfold checkLinkStatus
    rw [List.get?_append_right (by omega), hplen, List.get?_map, List.get?_drop]
    have : 50 + (i - 50) = i := by omega
    rw [this, hl]
    rfl

/-- Witness for C1: a two-link list probed with a stub probe that
returns 404 for the first URL and fails for the second. -/
theorem check_link_status_spec_witness :
    (checkLinkStatus
        (fun u => if u = "https://ex.com/a" then some 404 else none)
        [exLink0, { exLink0 with url := "https://ex.com/b" }] 50).get? 0 =
      some { url := exLink0.url, link_type := exLink0.link_type,
             anchor_text := exLink0.anchor_text,
             parent_element := exLink0.parent_element,
             status_code := some 404, is_broken := true } := by
  have h :=
    (check_link_status_spec
        (fun u => if u = "https://ex.com/a" then some 404 else none)
        [exLink0, { exLink0 with url := "https://ex.com/b" }]).2.1
      0 exLink0 (by omega) rfl
  simpa [exLink0] using h

end SmartCrawler

namespace SmartCrawler

/-! ## Claim C2: non-semantic elements in the structure tree -/

/-- A non-semantic element yields no node (with no descent into its
children). -/
theorem buildTree_nonsemantic (d m : ℕ) (nt : String)
    (nattrs : List (String × String)) (ncls : List String) (nch : List Elem)
    (h : nt ∉ semanticTags) :
    buildTree d m (.tag nt nattrs ncls nch) = none := by
  unfold buildTree
  split_ifs <;> rfl

/-- `buildTreeList` distributes over append. -/
theorem buildTreeList_append (d m : ℕ) (l1 l2 : List Elem) :
    buildTreeList d m (l1 ++ l2) = buildTreeList d m l1 ++ buildTreeList d m l2 := by
  induction l1 with
  | nil => rfl
  | cons e rest ih =>
    simp only [List.cons_append, buildTreeList]
    cases h : buildTree d m e <;> simp [h, ih]

/-- The `child_counts` map only reads the tag names of the direct
children, never their attributes or subtrees. -/
theorem countChildTags_irrelevant (pre post : List Elem) (nt : String)
    (a1 a2 : List (String × String)) (c1 c2 : List String)
    (ch1 ch2 : List Elem) :
    countChildTags (pre ++ .tag nt a1 c1 ch1 :: post) =
      countChildTags (pre ++ .tag nt a2 c2 ch2 :: post) := by
  unfold countChildTags
  rw [List.foldl_append, List.foldl_append, List.foldl_cons, List.foldl_cons]

/-- Amended C2: a non-semantic element *terminates* the recursion — the
builder neither emits a node for it nor descends into its children, so
the entire subtree below a non-semantic wrapper is invisible to the
structure tree: replacing the wrapper's children by `[]` leaves the
built tree unchanged. -/
theorem structure_tree_nonsemantic_opaque (d maxD : ℕ) (t : String)
    (attrs : List (String × String)) (cls : List String)
    (pre post : List Elem) (nt : String) (nattrs : List (String × String))
    (ncls : List String) (nch : List Elem) (hnt : nt ∉ semanticTags) :
    buildTree d maxD (.tag t attrs cls (pre ++ .tag nt nattrs ncls nch :: post)) =
      buildTree d maxD (.tag t attrs cls (pre ++ .tag nt nattrs ncls [] :: post)) := by
  have hc := countChildTags_irrelevant pre post nt nattrs nattrs ncls ncls nch []
  have hb : buildTreeList (d + 1) maxD (pre ++ .tag nt nattrs ncls nch :: post) =
      buildTreeList (d + 1) maxD (pre ++ .tag nt nattrs ncls [] :: post) := by
    rw [buildTreeList_append, buildTreeList_append]
    congr 1
    simp only [buildTreeList,
      buildTree_nonsemantic (d + 1) maxD nt nattrs ncls nch hnt,
      buildTree_nonsemantic (d + 1) maxD nt nattrs ncls [] hnt]
  unfold buildTree
  split_ifs <;> first | rfl | rw [hc, hb]

/-- Witness for the amended C2 at the wrapped-section page: a `p`
wrapper is non-semantic, and emptying it leaves the tree unchanged. -/
theorem structure_tree_nonsemantic_opaque_witness :
    ("p" ∉ semanticTags) ∧
      buildTree 0 4 (.tag "body" [] []
          ([] ++ Elem.tag "p" [] [] [.tag "section" [("id", "s1")] [] []] :: [])) =
        buildTree 0 4 (.tag "body" [] [] ([] ++ Elem.tag "p" [] [] [] :: [])) :=
  ⟨by decide,
    structure_tree_nonsemantic_opaque 0 4 "body" [] [] [] [] "p" [] []
      [.tag "section" [("id", "s1")] [] []] (by decide)⟩

/-- Counterexample to C2 as stated: on
`<body><p><section id="s1"/></p></body>` the builder returns a body
node with *no* children — the `section` wrapped in the non-semantic `p`
does not appear anywhere in the structure tree (the claim says it
should be attached to the nearest retained ancestor). -/
theorem structure_tree_counterexample :
    extractHtmlStructure exWrappedSectionSoup =
      some (.mk "body" "" [] [("p", 1)] []) ∧
    (extractHtmlStructure exWrappedSectionSoup).map
        (SNode.containsTag "section") = some false := by
  constructor
  · rfl
  · rfl

end SmartCrawler

namespace SmartCrawler

/-! ## Claim C7: the form-label accessibility penalty -/

/-- The penalty loop subtracts 5 exactly once per penalised input. -/
theorem foldl_input_penalty (soup : Elem) (inputs : List Elem) (sc : ℤ) :
    inputs.foldl (fun sc inp => if inputPenalized soup inp then sc - 5 else sc) sc =
      sc - 5 * ((inputs.filter (inputPenalized soup)).length : ℤ) := by
  induction inputs generalizing sc with
  | nil => simp
  | cons e rest ih =>
    simp only [List.foldl_cons, List.filter_cons]
    by_cases h : inputPenalized soup e
    · simp only [h, if_true, ih, List.length_cons]
      push_cast
      ring
    · simp only [h, if_false, ih]
      simp [h]

/-- Amended C7: the accessibility score equals the spec-side
formulation in which the `−5` form-label penalty applies exactly to the
type-matching inputs that carry a truthy `id` and lack a matching
label — an input without an `id` attribute is never penalised. -/
theorem accessibility_penalty_requires_id (soup : Elem) :
    analyzeAccessibility soup = specAccessibility soup := by
  unfold analyzeAccessibility specAccessibility penalizedInputs
  dsimp only
  rw [foldl_input_penalty]
  norm_num

/-- Counterexample to C7 as stated: a page with one H1 and a single
labelless `input[type=text]` carrying no `id`.  The claim counts it as
a labelless input (so the score should drop to 95), but the code never
penalises an input without an id: the score stays 100. -/
theorem accessibility_counterexample :
    (labellessInputsAll exNoIdInputSoup).length = 1 ∧
    analyzeAccessibility exNoIdInputSoup = 100 ∧
    analyzeAccessibility exNoIdInputSoup ≠
      100 - 5 * ((labellessInputsAll exNoIdInputSoup).length : ℤ) := by
  refine ⟨rfl, rfl, ?_⟩
  have h1 : analyzeAccessibility exNoIdInputSoup = 100 := rfl
  have h2 : (labellessInputsAll exNoIdInputSoup).length = 1 := rfl
  rw [h1, h2]
  decide

end SmartCrawler

namespace GraphViews

/-! ## Node-id infrastructure: decimal rendering and id disjointness -/

/-- `Nat.digitChar` is injective on decimal digits. -/
theorem digitChar_inj_lt : ∀ x < 10, ∀ y < 10, Nat.digitChar x = Nat.digitChar y → x = y := by
  decide

/-- Mapping `Nat.digitChar` over digit lists is injective. -/
theorem map_digitChar_inj : ∀ {l1 l2 : List ℕ}, (∀ x ∈ l1, x < 10) →
    (∀ x ∈ l2, x < 10) → l1.map Nat.digitChar = l2.map Nat.digitChar → l1 = l2 := by
  intro l1
  induction l1 with
  | nil =>
    intro l2 _ _ h
    cases l2 with
    | nil => rfl
    | cons b bs => simp at h
  | cons a as ih =>
    intro l2 h1 h2 h
    cases l2 with
    | nil => simp at h
    | cons b bs =>
      simp only [List.map_cons, List.cons.injEq] at h
      obtain ⟨hab, hrest⟩ := h
      have hab' : a = b :=
        digitChar_inj_lt a (h1 a (by simp)) b (h2 b (by simp)) hab
      subst hab'
      rw [ih (fun x hx => h1 x (by simp [hx])) (fun x hx => h2 x (by simp [hx])) hrest]

/-- `natStr` (Python `str` on a counter) is injective. -/
theorem natStr_inj : ∀ {n m : ℕ}, natStr n = natStr m → n = m := by
  have key : ∀ {m : ℕ}, m ≠ 0 →
      ("0" : String) = ⟨((Nat.digits 10 m).map Nat.digitChar).reverse⟩ → False := by
    intro m hm h
    have hd := congrArg String.data h
    have hd' : ((Nat.digits 10 m).map Nat.digitChar).reverse = ['0'] := hd.symm
    have hmap : (Nat.digits 10 m).map Nat.digitChar = ['0'] := by
      have := congrArg List.reverse hd'
      simpa using this
    have hdig : Nat.digits 10 m = [0] := by
      apply map_digitChar_inj
        (fun x hx => Nat.digits_lt_base (by norm_num) hx) (by simp)
      rw [hmap]; rfl
    have h0 := Nat.ofDigits_digits 10 m
    rw [hdig] at h0
    simp [Nat.ofDigits] at h0
    exact hm h0.symm
  intro n m h
  unfold natStr at h
  by_cases hn : n = 0 <;> by_cases hm : m = 0
  · rw [hn, hm]
  · rw [if_pos hn, if_neg hm] at h
    exact absurd (key hm h) (by simp)
  · rw [if_neg hn, if_pos hm] at h
    exact absurd (key hn h.symm) (by simp)
  · rw [if_neg hn, if_neg hm] at h
    have hd := congrArg String.data h
    have hmap : (Nat.digits 10 n).map Nat.digitChar =
        (Nat.digits 10 m).map Nat.digitChar := by
      have := congrArg List.reverse hd
      simpa using this
    have hdig := map_digitChar_inj
      (fun x hx => Nat.digits_lt_base (by norm_num) hx)
      (fun x hx => Nat.digits_lt_base (by norm_num) hx) hmap
    exact Nat.digits_inj_iff.mp hdig

/-- Same-prefix ids are equal only at equal counters. -/
theorem mkId_inj_same {p : String} {n m : ℕ} (h : mkId p n = mkId p m) : n = m := by
  apply natStr_inj
  have hd := congrArg String.data h
  simp only [mkId, String.data_append] at hd
  exact String.ext (List.append_cancel_left hd)

theorem mkId_element_ne_internal (n m : ℕ) :
    mkId "element_" n ≠ mkId "internal_" m := by
  intro h
  have hd := congrArg String.data h
  simp only [mkId, String.data_append] at hd
  simp at hd

theorem mkId_element_ne_external (n m : ℕ) :
    mkId "element_" n ≠ mkId "external_" m := by
  intro h
  have hd := congrArg String.data h
  simp only [mkId, String.data_append] at hd
  simp at hd

theorem mkId_internal_ne_external (n m : ℕ) :
    mkId "internal_" n ≠ mkId "external_" m := by
  intro h
  have hd := congrArg String.data h
  simp only [mkId, String.data_append] at hd
  simp at hd

theorem mkId_element_ne_root (n : ℕ) : mkId "element_" n ≠ "root" := by
  intro h
  have hd := congrArg String.data h
  simp only [mkId, String.data_append] at hd
  simp at hd

theorem mkId_internal_ne_root (n : ℕ) : mkId "internal_" n ≠ "root" := by
  intro h
  have hd := congrArg String.data h
  simp only [mkId, String.data_append] at hd
  simp at hd

theorem mkId_external_ne_root (n : ℕ) : mkId "external_" n ≠ "root" := by
  intro h
  have hd := congrArg String.data h
  simp only [mkId, String.data_append] at hd
  simp at hd

end GraphViews

namespace GraphViews

/-! ## Association-list and pass lemmas -/

theorem alookup_mem {α : Type} : ∀ (m : List (String × α)) (k : String) (v : α),
    alookup m k = some v → (k, v) ∈ m := by
  intro m
  induction m with
  | nil => intro k v h; simp [alookup] at h
  | cons kv rest ih =>
    intro k v h
    simp only [alookup] at h
    split_ifs at h with hk
    · cases h
      have : kv = (k, kv.2) := by
        rw [← hk]
      rw [← this]
      exact List.mem_cons_self kv rest
    · right
      exact ih k v h

theorem elementPass_counter_le (u d : String) :
    ∀ (groups : List (String × List DLink)) (c : ℕ),
      c ≤ (elementPass u d groups c).counter := by
  intro groups
  induction groups with
  | nil => intro c; simp [elementPass]
  | cons g rest ih =>
    intro c
    obtain ⟨pe, gl⟩ := g
    by_cases h : gl.length > 1
    · simp only [elementPass, h, if_true]
      exact le_trans (Nat.le_succ c) (ih (c + 1))
    · simp only [elementPass, h, if_false]
      exact ih c

theorem elementPass_node_mem (u d : String) :
    ∀ (groups : List (String × List DLink)) (c : ℕ),
      ∀ n ∈ (elementPass u d groups c).nodes,
        (∃ i, c ≤ i ∧ i < (elementPass u d groups c).counter ∧
          n.id = mkId "element_" i) ∧
        n.type = "element_group" ∧
        ∃ pe, n.parent_element = some pe ∧
          n.layer = elementLayerMap (baseTagOf pe) ∧ n.label = pe.toUpper := by
  intro groups
  induction groups with
  | nil => intro c n hn; simp [elementPass] at hn
  | cons g rest ih =>
    intro c n hn
    obtain ⟨pe, gl⟩ := g
    by_cases h : gl.length > 1
    · simp only [elementPass, h, if_true] at hn ⊢
      rcases List.mem_cons.mp hn with heq | hmem
      · subst heq
        refine ⟨⟨c, le_refl c, ?_, rfl⟩, rfl, pe, rfl, rfl, rfl⟩
        exact lt_of_lt_of_le (Nat.lt_succ_self c) (elementPass_counter_le u d rest (c + 1))
      · obtain ⟨⟨i, hi1, hi2, hi3⟩, hrest⟩ := ih (c + 1) n hmem
        exact ⟨⟨i, by omega, hi2, hi3⟩, hrest⟩
    · simp only [elementPass, h, if_false] at hn ⊢
      exact ih c n hn

theorem elementPass_ids_nodup (u d : String) :
    ∀ (groups : List (String × List DLink)) (c : ℕ),
      ((elementPass u d groups c).nodes.map GNode.id).Nodup := by
  intro groups
  induction groups with
  | nil => intro c; simp [elementPass]
  | cons g rest ih =>
    intro c
    obtain ⟨pe, gl⟩ := g
    by_cases h : gl.length > 1
    · simp only [elementPass, h, if_true, List.map_cons, List.nodup_cons]
      refine ⟨?_, ih (c + 1)⟩
      intro hmem
      rcases List.mem_map.mp hmem with ⟨n, hn, hid⟩
      obtain ⟨⟨i, hi1, _, hi3⟩, _⟩ := elementPass_node_mem u d rest (c + 1) n hn
      rw [hi3] at hid
      have := mkId_inj_same hid.symm
      omega
    · simp only [elementPass, h, if_false]
      exact ih c

theorem elementPass_edges (u d : String) :
    ∀ (groups : List (String × List DLink)) (c : ℕ),
      ∀ e ∈ (elementPass u d groups c).edges,
        e.from_id = "root" ∧
        e.to_id ∈ (elementPass u d groups c).nodes.map GNode.id := by
  intro groups
  induction groups with
  | nil => intro c e he; simp [elementPass] at he
  | cons g rest ih =>
    intro c e he
    obtain ⟨pe, gl⟩ := g
    by_cases h : gl.length > 1
    · simp only [elementPass, h, if_true] at he ⊢
      rcases List.mem_cons.mp he with heq | hmem
      · subst heq
        exact ⟨rfl, by simp⟩
      · obtain ⟨h1, h2⟩ := ih (c + 1) e hmem
        exact ⟨h1, by simp [h2]⟩
    · simp only [elementPass, h, if_false] at he ⊢
      exact ih c e he

theorem elementPass_map_ids (u d : String) :
    ∀ (groups : List (String × List DLink)) (c : ℕ),
      ∀ kv ∈ (elementPass u d groups c).elementNodes,
        kv.2.id ∈ (elementPass u d groups c).nodes.map GNode.id := by
  intro groups
  induction groups with
  | nil => intro c kv hkv; simp [elementPass] at hkv
  | cons g rest ih =>
    intro c kv hkv
    obtain ⟨pe, gl⟩ := g
    by_cases h : gl.length > 1
    · simp only [elementPass, h, if_true] at hkv ⊢
      rcases List.mem_cons.mp hkv with heq | hmem
      · subst heq
        simp
      · have := ih (c + 1) kv hmem
        simp [this]
    · simp only [elementPass, h, if_false] at hkv ⊢
      exact ih c kv hkv

theorem elementPass_covers (u d : String) :
    ∀ (groups : List (String × List DLink)) (c : ℕ) (pe : String)
      (gl : List DLink), (pe, gl) ∈ groups → gl.length > 1 →
      ∃ n ∈ (elementPass u d groups c).nodes,
        n.type = "element_group" ∧ n.parent_element = some pe ∧
        n.layer = elementLayerMap (baseTagOf pe) := by
  intro groups
  induction groups with
  | nil => intro c pe gl hmem; simp at hmem
  | cons g rest ih =>
    intro c pe gl hmem hlen
    obtain ⟨pe', gl'⟩ := g
    rcases List.mem_cons.mp hmem with heq | hmem'
    · obtain ⟨h1, h2⟩ := Prod.mk.injEq .. ▸ heq
      cases heq
      simp only [elementPass, hlen, if_true]
      exact ⟨_, List.mem_cons_self _ _, rfl, rfl, rfl⟩
    · by_cases h : gl'.length > 1
      · simp only [elementPass, h, if_true]
        obtain ⟨n, hn, hprop⟩ := ih (c + 1) pe gl hmem' hlen
        exact ⟨n, List.mem_cons_of_mem _ hn, hprop⟩
      · simp only [elementPass, h, if_false]
        exact ih c pe gl hmem' hlen

end GraphViews

namespace GraphViews

theorem internalGroupPass_counter_le (en : List (String × ElemEntry))
    (pe : String) (gs : ℕ) : ∀ (ls : List DLink) (c : ℕ),
      c ≤ (internalGroupPass en pe gs ls c).counter := by
  intro ls
  induction ls with
  | nil => intro c; simp [internalGroupPass]
  | cons l rest ih =>
    intro c
    simp only [internalGroupPass]
    exact le_trans (Nat.le_succ c) (ih (c + 1))

theorem internalGroupPass_node_mem (en : List (String × ElemEntry))
    (pe : String) (gs : ℕ) : ∀ (ls : List DLink) (c : ℕ),
      ∀ n ∈ (internalGroupPass en pe gs ls c).nodes,
        (∃ i, c ≤ i ∧ i < (internalGroupPass en pe gs ls c).counter ∧
          n.id = mkId "internal_" i) ∧
        n.type = "internal" := by
  intro ls
  induction ls with
  | nil => intro c n hn; simp [internalGroupPass] at hn
  | cons l rest ih =>
    intro c n hn
    simp only [internalGroupPass] at hn ⊢
    rcases List.mem_cons.mp hn with heq | hmem
    · subst heq
      refine ⟨⟨c, le_refl c, ?_, rfl⟩, rfl⟩
      exact lt_of_lt_of_le (Nat.lt_succ_self c)
        (internalGroupPass_counter_le en pe gs rest (c + 1))
    · obtain ⟨⟨i, hi1, hi2, hi3⟩, ht⟩ := ih (c + 1) n hmem
      exact ⟨⟨i, by omega, hi2, hi3⟩, ht⟩

theorem internalGroupPass_ids_nodup (en : List (String × ElemEntry))
    (pe : String) (gs : ℕ) : ∀ (ls : List DLink) (c : ℕ),
      ((internalGroupPass en pe gs ls c).nodes.map GNode.id).Nodup := by
  intro ls
  induction ls with
  | nil => intro c; simp [internalGroupPass]
  | cons l rest ih =>
    intro c
    simp only [internalGroupPass, List.map_cons, List.nodup_cons]
    refine ⟨?_, ih (c + 1)⟩
    intro hmem
    rcases List.mem_map.mp hmem with ⟨n, hn, hid⟩
    obtain ⟨⟨i, hi1, _, hi3⟩, _⟩ :=
      internalGroupPass_node_mem en pe gs rest (c + 1) n hn
    rw [hi3] at hid
    have := mkId_inj_same hid.symm
    omega

theorem internalGroupPass_edges (en : List (String × ElemEntry))
    (pe : String) (gs : ℕ) : ∀ (ls : List DLink) (c : ℕ),
      ∀ e ∈ (internalGroupPass en pe gs ls c).edges,
        (e.from_id = "root" ∨ ∃ kv ∈ en, e.from_id = kv.2.id) ∧
        e.to_id ∈ (internalGroupPass en pe gs ls c).nodes.map GNode.id := by
  intro ls
  induction ls with
  | nil => intro c e he; simp [internalGroupPass] at he
  | cons l rest ih =>
    intro c e he
    simp only [internalGroupPass] at he ⊢
    rcases List.mem_cons.mp he with heq | hmem
    · subst heq
      constructor
      · unfold internalNodeEdge
        dsimp only
        cases hx : alookup en pe with
        | none => simp [hx]
        | some entry =>
          simp only [hx]
          by_cases hg : gs > 1
          · simp only [hg, if_true]
            exact Or.inr ⟨(pe, entry), alookup_mem en pe entry hx, rfl⟩
          · simp only [hg, if_false]
            exact Or.inl trivial
      · unfold internalNodeEdge
        dsimp only
        cases hx : alookup en pe with
        | none => simp [hx]
        | some entry =>
          simp only [hx]
          by_cases hg : gs > 1 <;> simp [hg]
    · obtain ⟨h1, h2⟩ := ih (c + 1) e hmem
      exact ⟨h1, by simp [h2]⟩

theorem internalPass_counter_le (en : List (String × ElemEntry)) :
    ∀ (groups : List (String × List DLink)) (c : ℕ),
      c ≤ (internalPass en groups c).counter := by
  intro groups
  induction groups with
  | nil => intro c; simp [internalPass]
  | cons g rest ih =>
    intro c
    obtain ⟨pe, gl⟩ := g
    simp only [internalPass]
    exact le_trans (internalGroupPass_counter_le en pe gl.length gl c)
      (ih ((internalGroupPass en pe gl.length gl c).counter))

theorem internalPass_node_mem (en : List (String × ElemEntry)) :
    ∀ (groups : List (String × List DLink)) (c : ℕ),
      ∀ n ∈ (internalPass en groups c).nodes,
        (∃ i, c ≤ i ∧ i < (internalPass en groups c).counter ∧
          n.id = mkId "internal_" i) ∧
        n.type = "internal" := by
  intro groups
  induction groups with
  | nil => intro c n hn; simp [internalPass] at hn
  | cons g rest ih =>
    intro c n hn
    obtain ⟨pe, gl⟩ := g
    simp only [internalPass] at hn ⊢
    rcases List.mem_append.mp hn with hmem | hmem
    · obtain ⟨⟨i, hi1, hi2, hi3⟩, ht⟩ :=
        internalGroupPass_node_mem en pe gl.length gl c n hmem
      refine ⟨⟨i, hi1, ?_, hi3⟩, ht⟩
      exact lt_of_lt_of_le hi2
        (internalPass_counter_le en rest ((internalGroupPass en pe gl.length gl c).counter))
    · obtain ⟨⟨i, hi1, hi2, hi3⟩, ht⟩ :=
        ih ((internalGroupPass en pe gl.length gl c).counter) n hmem
      refine ⟨⟨i, ?_, hi2, hi3⟩, ht⟩
      exact le_trans (internalGroupPass_counter_le en pe gl.length gl c) hi1

theorem internalPass_ids_nodup (en : List (String × ElemEntry)) :
    ∀ (groups : List (String × List DLink)) (c : ℕ),
      ((internalPass en groups c).nodes.map GNode.id).Nodup := by
  intro groups
  induction groups with
  | nil => intro c; simp [internalPass]
  | cons g rest ih =>
    intro c
    obtain ⟨pe, gl⟩ := g
    simp only [internalPass, List.map_append]
    rw [List.nodup_append]
    refine ⟨internalGroupPass_ids_nodup en pe gl.length gl c,
      ih ((internalGroupPass en pe gl.length gl c).counter), ?_⟩
    intro x hx hy
    rcases List.mem_map.mp hx with ⟨n1, hn1, hid1⟩
    rcases List.mem_map.mp hy with ⟨n2, hn2, hid2⟩
    obtain ⟨⟨i1, hi1a, hi1b, hi1c⟩, _⟩ :=
      internalGroupPass_node_mem en pe gl.length gl c n1 hn1
    obtain ⟨⟨i2, hi2a, hi2b, hi2c⟩, _⟩ :=
      internalPass_node_mem en rest
        ((internalGroupPass en pe gl.length gl c).counter) n2 hn2
    rw [hi1c] at hid1
    rw [hi2c] at hid2
    have := mkId_inj_same (hid1.trans hid2.symm)
    omega

end GraphViews

namespace GraphViews

theorem internalPass_edges (en : List (String × ElemEntry)) :
    ∀ (groups : List (String × List DLink)) (c : ℕ),
      ∀ e ∈ (internalPass en groups c).edges,
        (e.from_id = "root" ∨ ∃ kv ∈ en, e.from_id = kv.2.id) ∧
        e.to_id ∈ (internalPass en groups c).nodes.map GNode.id := by
  intro groups
  induction groups with
  | nil => intro c e he; simp [internalPass] at he
  | cons g rest ih =>
    intro c e he
    obtain ⟨pe, gl⟩ := g
    simp only [internalPass, List.map_append] at he ⊢
    rcases List.mem_append.mp he with hmem | hmem
    · obtain ⟨h1, h2⟩ := internalGroupPass_edges en pe gl.length gl c e hmem
      exact ⟨h1, List.mem_append_left _ h2⟩
    · obtain ⟨h1, h2⟩ :=
        ih ((internalGroupPass en pe gl.length gl c).counter) e hmem
      exact ⟨h1, List.mem_append_right _ h2⟩

/-! ## `external_domains` dict lemmas -/

theorem bumpExt_shape : ∀ (dm : List (String × ExtEntry)) (k : String),
    dmShape (bumpExt dm k) = dmShape dm := by
  intro dm
  induction dm with
  | nil => intro k; rfl
  | cons kv rest ih =>
    intro k
    simp only [bumpExt]
    split_ifs with hk
    · rfl
    · have hr := ih k
      simp only [dmShape, List.map_cons] at hr ⊢
      rw [hr]

theorem alookup_bumpExt_ne : ∀ (dm : List (String × ExtEntry)) (k h : String),
    h ≠ k → alookup (bumpExt dm k) h = alookup dm h := by
  intro dm
  induction dm with
  | nil => intro k h _; rfl
  | cons kv rest ih =>
    intro k h hne
    simp only [bumpExt]
    split_ifs with hk
    · simp only [alookup]
      split_ifs with hk2
      · exact absurd (hk2.symm.trans hk) hne
      · rfl
    · simp only [alookup]
      split_ifs with hk2
      · rfl
      · exact ih k h hne

theorem alookup_bumpExt_self : ∀ (dm : List (String × ExtEntry)) (k : String),
    alookup (bumpExt dm k) k =
      (alookup dm k).map (fun v => { v with count := v.count + 1 }) := by
  intro dm
  induction dm with
  | nil => intro k; rfl
  | cons kv rest ih =>
    intro k
    simp only [bumpExt]
    split_ifs with hk
    · simp only [alookup, hk, if_true, Option.map_some']
    · simp only [alookup, hk, if_false]
      exact ih k

theorem alookup_append_of_some {α : Type} :
    ∀ (m1 m2 : List (String × α)) (k : String) (v : α),
      alookup m1 k = some v → alookup (m1 ++ m2) k = some v := by
  intro m1
  induction m1 with
  | nil => intro m2 k v h; simp [alookup] at h
  | cons kv rest ih =>
    intro m2 k v h
    simp only [alookup, List.cons_append] at h ⊢
    split_ifs at h ⊢ with hk
    · exact h
    · exact ih m2 k v h

theorem alookup_append_of_none {α : Type} :
    ∀ (m1 m2 : List (String × α)) (k : String),
      alookup m1 k = none → alookup (m1 ++ m2) k = alookup m2 k := by
  intro m1
  induction m1 with
  | nil => intro m2 k _; rfl
  | cons kv rest ih =>
    intro m2 k h
    by_cases hk : kv.1 = k
    · simp only [alookup, if_pos hk] at h
      exact Option.noConfusion h
    · simp only [alookup, if_neg hk, List.cons_append] at h ⊢
      exact ih m2 k h

theorem alookup_none_not_mem_shape :
    ∀ (dm : List (String × ExtEntry)) (h : String),
      alookup dm h = none → ∀ x ∈ dmShape dm, x.1 ≠ h := by
  intro dm
  induction dm with
  | nil => intro h _ x hx; simp [dmShape] at hx
  | cons kv rest ih =>
    intro h hnone x hx
    by_cases hk : kv.1 = h
    · simp only [alookup, if_pos hk] at hnone
      exact Option.noConfusion hnone
    · simp only [alookup, if_neg hk] at hnone
      simp only [dmShape, List.map_cons, List.mem_cons] at hx
      rcases hx with heq | hmem
      · subst heq
        exact hk
      · exact ih h hnone x hmem

theorem alookup_shape_mem :
    ∀ (dm : List (String × ExtEntry)) (h : String) (v : ExtEntry),
      alookup dm h = some v → (h, v.node_id) ∈ dmShape dm := by
  intro dm h v hl
  have := alookup_mem dm h v hl
  simp only [dmShape, List.mem_map]
  exact ⟨(h, v), this, rfl⟩

end GraphViews

namespace GraphViews

theorem externalPass_counter_le :
    ∀ (ls : List DLink) (c : ℕ) (dm : List (String × ExtEntry)),
      c ≤ (externalPass ls c dm).counter := by
  intro ls
  induction ls with
  | nil => intro c dm; simp [externalPass]
  | cons l rest ih =>
    intro c dm
    cases hx : alookup dm l.host with
    | some entry =>
      simp only [externalPass, hx]
      exact ih c (bumpExt dm l.host)
    | none =>
      simp only [externalPass, hx]
      exact le_trans (Nat.le_succ c) (ih (c + 1) _)

theorem externalPass_node_mem :
    ∀ (ls : List DLink) (c : ℕ) (dm : List (String × ExtEntry)),
      ∀ n ∈ (externalPass ls c dm).nodes,
        n.type = "external" ∧ n.label = n.domain ∧ n.layer = 1 ∧
        ∃ i, c ≤ i ∧ i < (externalPass ls c dm).counter ∧
          n.id = mkId "external_" i := by
  intro ls
  induction ls with
  | nil => intro c dm n hn; simp [externalPass] at hn
  | cons l rest ih =>
    intro c dm n hn
    cases hx : alookup dm l.host with
    | some entry =>
      simp only [externalPass, hx] at hn ⊢
      exact ih c (bumpExt dm l.host) n hn
    | none =>
      simp only [externalPass, hx] at hn ⊢
      rcases List.mem_cons.mp hn with heq | hmem
      · subst heq
        refine ⟨rfl, rfl, rfl, c, le_refl c, ?_, rfl⟩
        exact lt_of_lt_of_le (Nat.lt_succ_self c) (externalPass_counter_le rest (c + 1) _)
      · obtain ⟨h1, h2, h3, i, hi1, hi2, hi3⟩ := ih (c + 1) _ n hmem
        exact ⟨h1, h2, h3, i, by omega, hi2, hi3⟩

theorem externalPass_ids_nodup :
    ∀ (ls : List DLink) (c : ℕ) (dm : List (String × ExtEntry)),
      ((externalPass ls c dm).nodes.map GNode.id).Nodup := by
  intro ls
  induction ls with
  | nil => intro c dm; simp [externalPass]
  | cons l rest ih =>
    intro c dm
    cases hx : alookup dm l.host with
    | some entry =>
      simp only [externalPass, hx]
      exact ih c (bumpExt dm l.host)
    | none =>
      simp only [externalPass, hx, List.map_cons, List.nodup_cons]
      refine ⟨?_, ih (c + 1) _⟩
      intro hmem
      rcases List.mem_map.mp hmem with ⟨n, hn, hid⟩
      obtain ⟨_, _, _, i, hi1, _, hi3⟩ := externalPass_node_mem rest (c + 1) _ n hn
      rw [hi3] at hid
      have := mkId_inj_same hid.symm
      omega

theorem externalPass_edges :
    ∀ (ls : List DLink) (c : ℕ) (dm : List (String × ExtEntry)),
      ∀ e ∈ (externalPass ls c dm).edges,
        e.from_id = "root" ∧
        (e.to_id ∈ (externalPass ls c dm).nodes.map GNode.id ∨
          ∃ x ∈ dmShape dm, e.to_id = x.2) := by
  intro ls
  induction ls with
  | nil => intro c dm e he; simp [externalPass] at he
  | cons l rest ih =>
    intro c dm e he
    cases hx : alookup dm l.host with
    | some entry =>
      simp only [externalPass, hx] at he ⊢
      rcases List.mem_cons.mp he with heq | hmem
      · subst heq
        exact ⟨rfl, Or.inr ⟨(l.host, entry.node_id),
          alookup_shape_mem dm l.host entry hx, rfl⟩⟩
      · obtain ⟨h1, h2⟩ := ih c (bumpExt dm l.host) e hmem
        refine ⟨h1, ?_⟩
        rcases h2 with h2 | ⟨x, hxm, hxe⟩
        · exact Or.inl h2
        · rw [bumpExt_shape] at hxm
          exact Or.inr ⟨x, hxm, hxe⟩
    | none =>
      simp only [externalPass, hx] at he ⊢
      rcases List.mem_cons.mp he with heq | hmem
      · subst heq
        exact ⟨rfl, Or.inl (by simp)⟩
      · obtain ⟨h1, h2⟩ := ih (c + 1) _ e hmem
        refine ⟨h1, ?_⟩
        rcases h2 with h2 | ⟨x, hxm, hxe⟩
        · exact Or.inl (by simp [h2])
        · rw [bumpExt_shape] at hxm
          simp only [dmShape, List.map_append, List.mem_append] at hxm
          rcases hxm with hxm | hxm
          · exact Or.inr ⟨x, hxm, hxe⟩
          · simp only [List.map_cons, List.map_nil, List.mem_singleton] at hxm
            subst hxm
            exact Or.inl (by simp [hxe])

end GraphViews

namespace GraphViews

/-- C10: the layout builder's output always contains the root node at
the head (id `root`, layer 0), all node ids are pairwise distinct, and
every edge endpoint refers to a node present in the output, so the
stats over the non-empty node list are always defined. -/
theorem graph_well_formed (mainUrl mainDomain : String) (links : List DLink) :
    ((apiGraphData mainUrl mainDomain links).nodes.head? =
      some (rootNode mainUrl mainDomain)) ∧
    ((apiGraphData mainUrl mainDomain links).nodes.map GNode.id).Nodup ∧
    ∀ e ∈ (apiGraphData mainUrl mainDomain links).edges,
      e.from_id ∈ (apiGraphData mainUrl mainDomain links).nodes.map GNode.id ∧
      e.to_id ∈ (apiGraphData mainUrl mainDomain links).nodes.map GNode.id := by
  simp only [apiGraphData]
  set intLinks := (links.filter (fun l => l.link_type = "internal")).take 50 with hIL
  set extLinks := (links.filter (fun l => l.link_type = "external")).take 30 with hEL
  set groups := groupByParent intLinks with hG
  set r1 := elementPass mainUrl mainDomain groups 0 with hr1
  set r2 := internalPass r1.elementNodes groups r1.counter with hr2
  set r3 := externalPass extLinks r2.counter [] with hr3
  have hidsE : ∀ x ∈ r1.nodes.map GNode.id, ∃ i, x = mkId "element_" i := by
    intro x hx
    rcases List.mem_map.mp hx with ⟨n, hn, hid⟩
    obtain ⟨⟨i, _, _, hi⟩, _⟩ := elementPass_node_mem mainUrl mainDomain groups 0 n hn
    exact ⟨i, hid ▸ hi⟩
  have hidsI : ∀ x ∈ r2.nodes.map GNode.id, ∃ i, x = mkId "internal_" i := by
    intro x hx
    rcases List.mem_map.mp hx with ⟨n, hn, hid⟩
    obtain ⟨⟨i, _, _, hi⟩, _⟩ :=
      internalPass_node_mem r1.elementNodes groups r1.counter n hn
    exact ⟨i, hid ▸ hi⟩
  have hidsX : ∀ x ∈ r3.nodes.map GNode.id, ∃ i, x = mkId "external_" i := by
    intro x hx
    rcases List.mem_map.mp hx with ⟨n, hn, hid⟩
    obtain ⟨_, _, _, i, _, _, hi⟩ :=
      externalPass_node_mem extLinks r2.counter [] n hn
    exact ⟨i, hid ▸ hi⟩
  refine ⟨rfl, ?_, ?_⟩
  · simp only [List.map_cons, List.map_append, rootNode]
    rw [List.nodup_cons]
    constructor
    · intro hmem
      simp only [List.mem_append] at hmem
      rcases hmem with (hm | hm) | hm
      · obtain ⟨i, hi⟩ := hidsE "root" hm
        exact mkId_element_ne_root i hi.symm
      · obtain ⟨i, hi⟩ := hidsI "root" hm
        exact mkId_internal_ne_root i hi.symm
      · obtain ⟨i, hi⟩ := hidsX "root" hm
        exact mkId_external_ne_root i hi.symm
    · rw [List.nodup_append, List.nodup_append]
      refine ⟨⟨elementPass_ids_nodup mainUrl mainDomain groups 0,
        internalPass_ids_nodup r1.elementNodes groups r1.counter, ?_⟩,
        externalPass_ids_nodup extLinks r2.counter [], ?_⟩
      · intro x hxE hxI
        obtain ⟨i, hi⟩ := hidsE x hxE
        obtain ⟨j, hj⟩ := hidsI x hxI
        exact mkId_element_ne_internal i j (hi.symm.trans hj)
      · intro x hxEI hxX
        obtain ⟨j, hj⟩ := hidsX x hxX
        simp only [List.mem_append] at hxEI
        rcases hxEI with hm | hm
        · obtain ⟨i, hi⟩ := hidsE x hm
          exact mkId_element_ne_external i j (hi.symm.trans hj)
        · obtain ⟨i, hi⟩ := hidsI x hm
          exact mkId_internal_ne_external i j (hi.symm.trans hj)
  · intro e he
    have hroot : "root" ∈
        (rootNode mainUrl mainDomain :: (r1.nodes ++ r2.nodes ++ r3.nodes)).map GNode.id := by
      simp [rootNode]
    have hliftE : ∀ x ∈ r1.nodes.map GNode.id,
        x ∈ (rootNode mainUrl mainDomain :: (r1.nodes ++ r2.nodes ++ r3.nodes)).map GNode.id := by
      intro x hx
      simp only [List.map_cons, List.map_append, List.mem_cons, List.mem_append]
      exact Or.inr (Or.inl (Or.inl hx))
    have hliftI : ∀ x ∈ r2.nodes.map GNode.id,
        x ∈ (rootNode mainUrl mainDomain :: (r1.nodes ++ r2.nodes ++ r3.nodes)).map GNode.id := by
      intro x hx
      simp only [List.map_cons, List.map_append, List.mem_cons, List.mem_append]
      exact Or.inr (Or.inl (Or.inr hx))
    have hliftX : ∀ x ∈ r3.nodes.map GNode.id,
        x ∈ (rootNode mainUrl mainDomain :: (r1.nodes ++ r2.nodes ++ r3.nodes)).map GNode.id := by
      intro x hx
      simp only [List.map_cons, List.map_append, List.mem_cons, List.mem_append]
      exact Or.inr (Or.inr hx)
    simp only [List.mem_append] at he
    rcases he with (hm | hm) | hm
    · obtain ⟨h1, h2⟩ := elementPass_edges mainUrl mainDomain groups 0 e hm
      exact ⟨h1 ▸ hroot, hliftE _ h2⟩
    · obtain ⟨h1, h2⟩ := internalPass_edges r1.elementNodes groups r1.counter e hm
      refine ⟨?_, hliftI _ h2⟩
      rcases h1 with h1 | ⟨kv, hkv, h1⟩
      · exact h1 ▸ hroot
      · have := elementPass_map_ids mainUrl mainDomain groups 0 kv hkv
        exact h1 ▸ hliftE _ this
    · obtain ⟨h1, h2⟩ := externalPass_edges extLinks r2.counter [] e hm
      refine ⟨h1 ▸ hroot, ?_⟩
      rcases h2 with h2 | ⟨x, hxm, _⟩
      · exact hliftX _ h2
      · simp [dmShape] at hxm

/-- Witness for C10 at a concrete three-link job (two grouped internal
links and one external link), checking a concrete edge's endpoints. -/
theorem graph_well_formed_witness :
    ((apiGraphData "https://ex.com/" "ex.com"
        [exInternalLink "nav" "/a", exInternalLink "nav" "/b", exExternalLink]).nodes.head? =
      some (rootNode "https://ex.com/" "ex.com")) ∧
    ((apiGraphData "https://ex.com/" "ex.com"
        [exInternalLink "nav" "/a", exInternalLink "nav" "/b", exExternalLink]).nodes.map GNode.id).Nodup ∧
    ∀ e ∈ (apiGraphData "https://ex.com/" "ex.com"
        [exInternalLink "nav" "/a", exInternalLink "nav" "/b", exExternalLink]).edges,
      e.from_id ∈ (apiGraphData "https://ex.com/" "ex.com"
        [exInternalLink "nav" "/a", exInternalLink "nav" "/b", exExternalLink]).nodes.map GNode.id ∧
      e.to_id ∈ (apiGraphData "https://ex.com/" "ex.com"
        [exInternalLink "nav" "/a", exInternalLink "nav" "/b", exExternalLink]).nodes.map GNode.id :=
  graph_well_formed "https://ex.com/" "ex.com"
    [exInternalLink "nav" "/a", exInternalLink "nav" "/b", exExternalLink]

end GraphViews

namespace GraphViews

/-- Amended C8: every synthetic element-group node's layer is the fixed
table applied to the prefix of its `parent_element` path before the
first `'#'` or `'.'` character (not to the leading tag token: a
multi-segment path with a bare leading tag contains `" > "` in that
prefix and falls to the table's default, layer 1); and every group of
internal links with more than one member gets such a node. -/
theorem element_group_layer_from_base_tag (mainUrl mainDomain : String)
    (links : List DLink) :
    (∀ n ∈ (apiGraphData mainUrl mainDomain links).nodes,
      n.type = "element_group" →
      ∃ pe, n.parent_element = some pe ∧
        n.layer = elementLayerMap (baseTagOf pe)) ∧
    (∀ pe gl,
      (pe, gl) ∈ groupByParent
        ((links.filter (fun l => l.link_type = "internal")).take 50) →
      gl.length > 1 →
      ∃ n ∈ (apiGraphData mainUrl mainDomain links).nodes,
        n.type = "element_group" ∧ n.parent_element = some pe ∧
        n.layer = elementLayerMap (baseTagOf pe)) := by
  simp only [apiGraphData]
  set intLinks := (links.filter (fun l => l.link_type = "internal")).take 50 with hIL
  set extLinks := (links.filter (fun l => l.link_type = "external")).take 30 with hEL
  set groups := groupByParent intLinks with hG
  set r1 := elementPass mainUrl mainDomain groups 0 with hr1
  set r2 := internalPass r1.elementNodes groups r1.counter with hr2
  set r3 := externalPass extLinks r2.counter [] with hr3
  constructor
  · intro n hn htype
    rcases List.mem_cons.mp hn with heq | hmem
    · subst heq
      simp [rootNode] at htype
    · simp only [List.mem_append] at hmem
      rcases hmem with (hm | hm) | hm
      · obtain ⟨_, _, pe, hpe, hlayer, _⟩ :=
          elementPass_node_mem mainUrl mainDomain groups 0 n hm
        exact ⟨pe, hpe, hlayer⟩
      · obtain ⟨_, ht⟩ :=
          internalPass_node_mem r1.elementNodes groups r1.counter n hm
        rw [ht] at htype
        exact absurd htype (by decide)
      · obtain ⟨ht, _⟩ := externalPass_node_mem extLinks r2.counter [] n hm
        rw [ht] at htype
        exact absurd htype (by decide)
  · intro pe gl hmem hlen
    obtain ⟨n, hn, hprop⟩ :=
      elementPass_covers mainUrl mainDomain groups 0 pe gl hmem hlen
    refine ⟨n, ?_, hprop⟩
    exact List.mem_cons_of_mem _ (List.mem_append_left _ (List.mem_append_left _ hn))

/-- Witness for the amended C8: two internal links share the path
`section > nav`; the created group node's layer is
`elementLayerMap (baseTagOf "section > nav") = 1`. -/
theorem element_group_layer_from_base_tag_witness :
    ∃ n ∈ (apiGraphData "https://ex.com/" "ex.com"
        [exInternalLink "section > nav" "/a",
         exInternalLink "section > nav" "/b"]).nodes,
      n.type = "element_group" ∧ n.parent_element = some "section > nav" ∧
      n.layer = elementLayerMap (baseTagOf "section > nav") := by
  have h := (element_group_layer_from_base_tag "https://ex.com/" "ex.com"
    [exInternalLink "section > nav" "/a", exInternalLink "section > nav" "/b"]).2
  exact h "section > nav"
    [exInternalLink "section > nav" "/a", exInternalLink "section > nav" "/b"]
    (by decide) (by decide)

/-- Counterexample to C8 as stated: a two-member group with the
multi-segment path `section > nav`, whose *leading tag token* is
`section` (table value 2); the code derives the base tag by splitting
only at `'#'`/`'.'`, so the whole path falls to the default and the
node's layer is 1, not 2. -/
theorem element_group_layer_counterexample :
    (((apiGraphData "https://ex.com/" "ex.com"
        [exInternalLink "section > nav" "/a",
         exInternalLink "section > nav" "/b"]).nodes.filter
          (fun n => n.type = "element_group")).map
        (fun n => (n.parent_element, n.layer))) =
      [(some "section > nav", 1)] ∧
    claimGroupLayer "section > nav" = 2 :=
  ⟨rfl, rfl⟩

end GraphViews

namespace GraphViews

/-! ## `external_domains` invariant lemmas -/

theorem DmInv_bumpExt {dm : List (String × ExtEntry)} {c : ℕ} {k : String}
    (h : DmInv dm c) : DmInv (bumpExt dm k) c := by
  unfold DmInv at h ⊢
  rw [bumpExt_shape]
  exact h

theorem DmInv_ids_ne {dm : List (String × ExtEntry)} {c : ℕ}
    {h1 h2 : String} {v1 v2 : ExtEntry} (inv : DmInv dm c) (hne : h1 ≠ h2)
    (hl1 : alookup dm h1 = some v1) (hl2 : alookup dm h2 = some v2) :
    v1.node_id ≠ v2.node_id := by
  have hm1 := alookup_shape_mem dm h1 v1 hl1
  have hm2 := alookup_shape_mem dm h2 v2 hl2
  have hsym : Symmetric (fun a b : String × String => a.1 ≠ b.1 ∧ a.2 ≠ b.2) := by
    intro a b hab
    exact ⟨hab.1.symm, hab.2.symm⟩
  have hne' : (h1, v1.node_id) ≠ (h2, v2.node_id) := by
    intro heq
    exact hne (congrArg Prod.fst heq)
  have := List.Pairwise.forall hsym inv.1 hm1 hm2 hne'
  exact this.2

theorem DmInv_extend (dm : List (String × ExtEntry)) (c : ℕ) (host : String)
    (cnt0 : ℕ) (h : DmInv dm c) (hnone : alookup dm host = none) :
    DmInv (dm ++ [(host, { node_id := mkId "external_" c, count := cnt0 })])
      (c + 1) := by
  constructor
  · have hshape : dmShape (dm ++ [(host, { node_id := mkId "external_" c, count := cnt0 })]) =
        dmShape dm ++ [(host, mkId "external_" c)] := by
      simp [dmShape]
    rw [hshape, List.pairwise_append]
    refine ⟨h.1, List.pairwise_singleton _ _, ?_⟩
    intro a ha b hb
    simp only [List.mem_singleton] at hb
    subst hb
    exact ⟨alookup_none_not_mem_shape dm host hnone a ha,
      h.2 a ha c (le_refl c)⟩
  · intro kv hkv j hj
    have hshape : dmShape (dm ++ [(host, { node_id := mkId "external_" c, count := cnt0 })]) =
        dmShape dm ++ [(host, mkId "external_" c)] := by
      simp [dmShape]
    rw [hshape] at hkv
    rcases List.mem_append.mp hkv with hm | hm
    · exact h.2 kv hm j (by omega)
    · simp only [List.mem_singleton] at hm
      subst hm
      intro heq
      have := mkId_inj_same heq
      omega

/-- Edges produced for a host already present in `external_domains`:
their target is that host's node and their counts continue the running
count, one per remaining link to the host. -/
theorem externalPass_count_known :
    ∀ (ls : List DLink) (c : ℕ) (dm : List (String × ExtEntry))
      (h nid : String) (cnt : ℕ),
      DmInv dm c → alookup dm h = some { node_id := nid, count := cnt } →
      (((externalPass ls c dm).edges.filter (fun e => e.to_id = nid)).map GEdge.count) =
        (List.range (ls.countP (fun l => l.host = h))).map
          (fun j => some (cnt + 1 + j)) := by
  intro ls
  induction ls with
  | nil => intro c dm h nid cnt _ _; simp [externalPass]
  | cons l rest ih =>
    intro c dm h nid cnt hinv hl
    by_cases hh : l.host = h
    · have hx : alookup dm l.host = some { node_id := nid, count := cnt } := by
        rw [hh]; exact hl
      simp only [externalPass, hx]
      have hinv' : DmInv (bumpExt dm l.host) c := DmInv_bumpExt hinv
      have hl' : alookup (bumpExt dm l.host) h =
          some { node_id := nid, count := cnt + 1 } := by
        rw [← hh, alookup_bumpExt_self, hx]
        rfl
      have hrec := ih c (bumpExt dm l.host) h nid (cnt + 1) hinv' hl'
      have hcount : (l :: rest).countP (fun l => l.host = h) =
          rest.countP (fun l => l.host = h) + 1 := by
        simp [List.countP_cons, hh]
      rw [hcount, List.range_succ_eq_map]
      simp only [List.filter_cons]
      rw [if_pos (by simp)]
      simp only [List.map_cons, List.map_map, hrec]
      congr 1
      apply List.map_congr_left
      intro j _
      simp only [Function.comp_apply, Option.some.injEq]
      omega
    · have hne : h ≠ l.host := fun heq => hh heq.symm
      have hcount : (l :: rest).countP (fun l => l.host = h) =
          rest.countP (fun l => l.host = h) := by
        simp [List.countP_cons, hh]
      cases hx : alookup dm l.host with
      | some entry2 =>
        simp only [externalPass, hx]
        have hne_id : entry2.node_id ≠ nid :=
          DmInv_ids_ne hinv (fun heq => hh heq) hx hl
        have hinv' : DmInv (bumpExt dm l.host) c := DmInv_bumpExt hinv
        have hl' : alookup (bumpExt dm l.host) h =
            some { node_id := nid, count := cnt } := by
          rw [alookup_bumpExt_ne dm l.host h hne]
          exact hl
        have hrec := ih c (bumpExt dm l.host) h nid cnt hinv' hl'
        rw [hcount]
        simp only [List.filter_cons]
        rw [if_neg (by simp [hne_id])]
        exact hrec
      | none =>
        simp only [externalPass, hx]
        have hmem := alookup_shape_mem dm h { node_id := nid, count := cnt } hl
        have hne_id : ¬((mkId "external_" c : String) = nid) := by
          intro heq
          exact hinv.2 (h, nid) hmem c (le_refl c) heq.symm
        have hinv'' : DmInv
            (bumpExt (dm ++ [(l.host, { node_id := mkId "external_" c, count := 0 })]) l.host)
            (c + 1) :=
          DmInv_bumpExt (DmInv_extend dm c l.host 0 hinv hx)
        have hl'' : alookup
            (bumpExt (dm ++ [(l.host, { node_id := mkId "external_" c, count := 0 })]) l.host) h =
            some { node_id := nid, count := cnt } := by
          rw [alookup_bumpExt_ne _ l.host h hne]
          exact alookup_append_of_some dm _ h _ hl
        have hrec := ih (c + 1) _ h nid cnt hinv'' hl''
        rw [hcount]
        simp only [List.filter_cons]
        rw [if_neg (by simp [hne_id])]
        exact hrec

end GraphViews

namespace GraphViews

/-- Once a host is present in `external_domains`, no further node is
created for it. -/
theorem externalPass_no_node_known :
    ∀ (ls : List DLink) (c : ℕ) (dm : List (String × ExtEntry)) (h : String),
      (alookup dm h).isSome → ∀ n ∈ (externalPass ls c dm).nodes, n.domain ≠ h := by
  intro ls
  induction ls with
  | nil => intro c dm h _ n hn; simp [externalPass] at hn
  | cons l rest ih =>
    intro c dm h hsome n hn
    cases hx : alookup dm l.host with
    | some entry =>
      simp only [externalPass, hx] at hn
      refine ih c (bumpExt dm l.host) h ?_ n hn
      by_cases hh : h = l.host
      · subst hh
        rw [alookup_bumpExt_self, hx]
        rfl
      · rw [alookup_bumpExt_ne dm l.host h hh]
        exact hsome
    | none =>
      have hne : l.host ≠ h := by
        intro heq
        rw [heq] at hx
        rw [hx] at hsome
        simp at hsome
      simp only [externalPass, hx] at hn
      rcases List.mem_cons.mp hn with heq | hmem
      · subst heq
        exact hne
      · refine ih (c + 1) _ h ?_ n hmem
        have hne' : h ≠ l.host := hne.symm
        rw [alookup_bumpExt_ne _ l.host h hne']
        rcases Option.isSome_iff_exists.mp hsome with ⟨v, hv⟩
        rw [alookup_append_of_some dm _ h v hv]
        rfl

/-- The first link to a host not yet in `external_domains` creates
exactly one node for that host (external, layer 1, labelled with the
host), and the edges to that node carry the running counts `1..k`
where `k` is the number of links to the host. -/
theorem externalPass_fresh :
    ∀ (ls : List DLink) (c : ℕ) (dm : List (String × ExtEntry)) (h : String),
      DmInv dm c → alookup dm h = none →
      0 < ls.countP (fun l => l.host = h) →
      ∃ nid,
        (((externalPass ls c dm).nodes.filter (fun n => n.domain = h)).map GNode.id) = [nid] ∧
        (∃ n ∈ (externalPass ls c dm).nodes,
          n.id = nid ∧ n.type = "external" ∧ n.label = h ∧ n.layer = 1 ∧
          n.domain = h) ∧
        (((externalPass ls c dm).edges.filter (fun e => e.to_id = nid)).map GEdge.count =
          (List.range (ls.countP (fun l => l.host = h))).map (fun j => some (1 + j))) := by
  intro ls
  induction ls with
  | nil =>
    intro c dm h _ _ hocc
    simp at hocc
  | cons l rest ih =>
    intro c dm h hinv hnone hocc
    by_cases hh : l.host = h
    · subst hh
      simp only [externalPass, hnone]
      have hl'' : alookup
          (bumpExt (dm ++ [(l.host, { node_id := mkId "external_" c, count := 0 })]) l.host)
          l.host = some { node_id := mkId "external_" c, count := 1 } := by
        rw [alookup_bumpExt_self,
          alookup_append_of_none dm _ l.host hnone]
        simp [alookup]
      have hinv'' : DmInv
          (bumpExt (dm ++ [(l.host, { node_id := mkId "external_" c, count := 0 })]) l.host)
          (c + 1) :=
        DmInv_bumpExt (DmInv_extend dm c l.host 0 hinv hnone)
      refine ⟨mkId "external_" c, ?_, ?_, ?_⟩
      · simp only [List.filter_cons]
        rw [if_pos (by simp)]
        have hrest : (externalPass rest (c + 1)
            (bumpExt (dm ++ [(l.host, { node_id := mkId "external_" c, count := 0 })]) l.host)).nodes.filter
              (fun n => n.domain = l.host) = [] := by
          rw [List.filter_eq_nil_iff]
          intro n hn
          have := externalPass_no_node_known rest (c + 1) _ l.host
            (by rw [hl'']; rfl) n hn
          simp [this]
        rw [hrest]
        rfl
      · exact ⟨_, List.mem_cons_self _ _, rfl, rfl, rfl, rfl, rfl⟩
      · have hcount : (l :: rest).countP (fun x => x.host = l.host) =
            rest.countP (fun x => x.host = l.host) + 1 := by
          simp [List.countP_cons]
        have hrec := externalPass_count_known rest (c + 1) _ l.host
          (mkId "external_" c) 1 hinv'' hl''
        rw [hcount, List.range_succ_eq_map]
        simp only [List.filter_cons]
        rw [if_pos (by simp)]
        simp only [List.map_cons, List.map_map, hrec]
        congr 1
        apply List.map_congr_left
        intro j _
        simp only [Function.comp_apply, Option.some.injEq]
        omega
    · have hne : h ≠ l.host := fun heq => hh heq.symm
      have hocc' : 0 < rest.countP (fun x => x.host = h) := by
        have : (l :: rest).countP (fun x => x.host = h) =
            rest.countP (fun x => x.host = h) := by
          simp [List.countP_cons, hh]
        omega
      have hcount : (l :: rest).countP (fun x => x.host = h) =
          rest.countP (fun x => x.host = h) := by
        simp [List.countP_cons, hh]
      cases hx : alookup dm l.host with
      | some entry2 =>
        simp only [externalPass, hx]
        have hinv' : DmInv (bumpExt dm l.host) c := DmInv_bumpExt hinv
        have hnone' : alookup (bumpExt dm l.host) h = none := by
          rw [alookup_bumpExt_ne dm l.host h hne]
          exact hnone
        obtain ⟨nid, h1, h2, h3⟩ := ih c _ h hinv' hnone' hocc'
        have hnid_shape : ∃ i, c ≤ i ∧ nid = mkId "external_" i := by
          obtain ⟨n, hn, hnid, _⟩ := h2
          obtain ⟨_, _, _, i, hi1, _, hi3⟩ :=
            externalPass_node_mem rest c (bumpExt dm l.host) n hn
          exact ⟨i, hi1, hnid ▸ hi3⟩
        have hne_id : entry2.node_id ≠ nid := by
          obtain ⟨i, hi, hnid⟩ := hnid_shape
          rw [hnid]
          have hm2 := alookup_shape_mem dm l.host entry2 hx
          exact hinv.2 (l.host, entry2.node_id) hm2 i hi
        refine ⟨nid, h1, h2, ?_⟩
        rw [hcount]
        simp only [List.filter_cons]
        rw [if_neg (by simp [hne_id])]
        exact h3
      | none =>
        simp only [externalPass, hx]
        have hinv'' : DmInv
            (bumpExt (dm ++ [(l.host, { node_id := mkId "external_" c, count := 0 })]) l.host)
            (c + 1) :=
          DmInv_bumpExt (DmInv_extend dm c l.host 0 hinv hx)
        have hnone'' : alookup
            (bumpExt (dm ++ [(l.host, { node_id := mkId "external_" c, count := 0 })]) l.host)
            h = none := by
          rw [alookup_bumpExt_ne _ l.host h hne,
            alookup_append_of_none dm _ h hnone]
          simp [alookup, hh]
        obtain ⟨nid, h1, h2, h3⟩ := ih (c + 1) _ h hinv'' hnone'' hocc'
        have hnid_shape : ∃ i, c + 1 ≤ i ∧ nid = mkId "external_" i := by
          obtain ⟨n, hn, hnid, _⟩ := h2
          obtain ⟨_, _, _, i, hi1, _, hi3⟩ :=
            externalPass_node_mem rest (c + 1) _ n hn
          exact ⟨i, hi1, hnid ▸ hi3⟩
        have hne_id : ¬((mkId "external_" c : String) = nid) := by
          obtain ⟨i, hi, hnid⟩ := hnid_shape
          rw [hnid]
          intro heq
          have := mkId_inj_same heq
          omega
        refine ⟨nid, ?_, ?_, ?_⟩
        · simp only [List.filter_cons]
          rw [if_neg (by simp [hh])]
          exact h1
        · obtain ⟨n, hn, hprops⟩ := h2
          exact ⟨n, List.mem_cons_of_mem _ hn, hprops⟩
        · rw [hcount]
          simp only [List.filter_cons]
          rw [if_neg (by simp [hne_id])]
          exact h3

end GraphViews


namespace GraphViews

/-- C9: external links are grouped by destination host: every host among
the (at most 30 kept) external links gets exactly one node — type
`external`, layer 1, labelled with the host — external links never get
per-link nodes, and the `k` links to a host produce exactly `k`
root→node edges whose running counts are `1, 2, ..., k` (so the
aggregate count reaches `k`). -/
theorem external_links_grouped_by_host (mainUrl mainDomain : String)
    (links : List DLink) (h : String)
    (hocc : 0 < ((links.filter (fun l => l.link_type = "external")).take 30).countP
        (fun l => l.host = h)) :
    ∃ nid,
      (((apiGraphData mainUrl mainDomain links).nodes.filter
          (fun n => n.type = "external" && n.domain = h)).map GNode.id) = [nid] ∧
      (∃ n ∈ (apiGraphData mainUrl mainDomain links).nodes,
        n.id = nid ∧ n.type = "external" ∧ n.label = h ∧ n.layer = 1) ∧
      (((apiGraphData mainUrl mainDomain links).edges.filter
          (fun e => e.to_id = nid)).map GEdge.count =
        (List.range (((links.filter (fun l => l.link_type = "external")).take 30).countP
            (fun l => l.host = h))).map (fun j => some (1 + j))) ∧
      (((apiGraphData mainUrl mainDomain links).edges.filter
          (fun e => e.to_id = nid)).length =
        ((links.filter (fun l => l.link_type = "external")).take 30).countP
          (fun l => l.host = h)) ∧
      (∀ e ∈ (apiGraphData mainUrl mainDomain links).edges.filter
          (fun e => e.to_id = nid), e.from_id = "root") := by
  simp only [apiGraphData]
  set intLinks := (links.filter (fun l => l.link_type = "internal")).take 50 with hIL
  set extLinks := (links.filter (fun l => l.link_type = "external")).take 30 with hEL
  set groups := groupByParent intLinks with hG
  set r1 := elementPass mainUrl mainDomain groups 0 with hr1
  set r2 := internalPass r1.elementNodes groups r1.counter with hr2
  set r3 := externalPass extLinks r2.counter [] with hr3
  have hinv0 : DmInv [] r2.counter := by
    constructor
    · simp [dmShape]
    · intro kv hkv
      simp [dmShape] at hkv
  obtain ⟨nid, h1, h2, h3⟩ :=
    externalPass_fresh extLinks r2.counter [] h hinv0 rfl hocc
  have hnid_shape : ∃ i, nid = mkId "external_" i := by
    obtain ⟨n, hn, hnid, _⟩ := h2
    obtain ⟨_, _, _, i, _, _, hi3⟩ :=
      externalPass_node_mem extLinks r2.counter [] n hn
    exact ⟨i, hnid ▸ hi3⟩
  obtain ⟨j, hj⟩ := hnid_shape
  have hEe : r1.edges.filter (fun e => e.to_id = nid) = [] := by
    rw [List.filter_eq_nil_iff]
    intro e he
    obtain ⟨_, hto⟩ := elementPass_edges mainUrl mainDomain groups 0 e he
    rcases List.mem_map.mp hto with ⟨n, hn, hid⟩
    obtain ⟨⟨i, _, _, hi⟩, _⟩ := elementPass_node_mem mainUrl mainDomain groups 0 n hn
    rw [hi] at hid
    simp only [decide_eq_true_eq]
    intro heq
    exact mkId_element_ne_external i j (hid.trans (heq.trans hj))
  have hIe : r2.edges.filter (fun e => e.to_id = nid) = [] := by
    rw [List.filter_eq_nil_iff]
    intro e he
    obtain ⟨_, hto⟩ := internalPass_edges r1.elementNodes groups r1.counter e he
    rcases List.mem_map.mp hto with ⟨n, hn, hid⟩
    obtain ⟨⟨i, _, _, hi⟩, _⟩ :=
      internalPass_node_mem r1.elementNodes groups r1.counter n hn
    rw [hi] at hid
    simp only [decide_eq_true_eq]
    intro heq
    exact mkId_internal_ne_external i j (hid.trans (heq.trans hj))
  refine ⟨nid, ?_, ?_, ?_, ?_, ?_⟩
  · simp only [List.filter_cons, List.filter_append]
    rw [if_neg (by simp [rootNode])]
    have hE : r1.nodes.filter (fun n => n.type = "external" && n.domain = h) = [] := by
      rw [List.filter_eq_nil_iff]
      intro n hn
      obtain ⟨_, ht, _⟩ := elementPass_node_mem mainUrl mainDomain groups 0 n hn
      simp [ht]
    have hI : r2.nodes.filter (fun n => n.type = "external" && n.domain = h) = [] := by
      rw [List.filter_eq_nil_iff]
      intro n hn
      obtain ⟨_, ht⟩ := internalPass_node_mem r1.elementNodes groups r1.counter n hn
      simp [ht]
    have hX : r3.nodes.filter (fun n => n.type = "external" && n.domain = h) =
        r3.nodes.filter (fun n => n.domain = h) := by
      apply List.filter_congr
      intro n hn
      obtain ⟨ht, _⟩ := externalPass_node_mem extLinks r2.counter [] n hn
      simp [ht]
    rw [hE, hI, hX]
    simpa using h1
  · obtain ⟨n, hn, hp1, hp2, hp3, hp4, _⟩ := h2
    refine ⟨n, ?_, hp1, hp2, hp3, hp4⟩
    exact List.mem_cons_of_mem _ (List.mem_append_right _ hn)
  · simp only [List.filter_append]
    rw [hEe, hIe]
    simpa using h3
  · simp only [List.filter_append]
    rw [hEe, hIe]
    have hlen := congrArg List.length h3
    rw [List.length_map, List.length_map, List.length_range] at hlen
    simpa using hlen
  · simp only [List.filter_append]
    rw [hEe, hIe]
    intro e he
    simp only [List.nil_append] at he
    have hmem := (List.mem_filter.mp he).1
    exact (externalPass_edges extLinks r2.counter [] e hmem).1

/-- Witness for C9: three external links to the host `other.com`. -/
theorem external_links_grouped_by_host_witness :
    ∃ nid,
      (((apiGraphData "https://ex.com/" "ex.com"
          [exExternalLink, exExternalLink, exExternalLink]).nodes.filter
          (fun n => n.type = "external" && n.domain = "other.com")).map GNode.id) = [nid] ∧
      (∃ n ∈ (apiGraphData "https://ex.com/" "ex.com"
          [exExternalLink, exExternalLink, exExternalLink]).nodes,
        n.id = nid ∧ n.type = "external" ∧ n.label = "other.com" ∧ n.layer = 1) ∧
      ((((apiGraphData "https://ex.com/" "ex.com"
          [exExternalLink, exExternalLink, exExternalLink]).edges.filter
          (fun e => e.to_id = nid)).map GEdge.count =
        (List.range ((([exExternalLink, exExternalLink, exExternalLink].filter
            (fun l => l.link_type = "external")).take 30).countP
            (fun l => l.host = "other.com"))).map (fun j => some (1 + j)))) ∧
      ((((apiGraphData "https://ex.com/" "ex.com"
          [exExternalLink, exExternalLink, exExternalLink]).edges.filter
          (fun e => e.to_id = nid)).length =
        (([exExternalLink, exExternalLink, exExternalLink].filter
            (fun l => l.link_type = "external")).take 30).countP
          (fun l => l.host = "other.com"))) ∧
      (∀ e ∈ (apiGraphData "https://ex.com/" "ex.com"
          [exExternalLink, exExternalLink, exExternalLink]).edges.filter
          (fun e => e.to_id = nid), e.from_id = "root") :=
  external_links_grouped_by_host "https://ex.com/" "ex.com"
    [exExternalLink, exExternalLink, exExternalLink] "other.com" (by decide)

end GraphViews
